import Mathlib

/-!
Verification of the RustGrapher core (Barnes–Hut quadtrees and the physics
simulator) against its natural-language specification.

The Rust sources are shallowly embedded over exact rational arithmetic:
`f32` values become `ℚ`, so every stated equality is "to within
floating-point rounding" of the original.  Comparisons of euclidean
distances against constants are embedded in squared form
(`dist < ε  ↔  distSq < ε²`, valid since both sides are nonnegative),
which avoids the irrational square root while preserving the branch
behaviour of the source.  Where a genuine square root value is needed
(vector normalization, the freeze-threshold test) the embedding takes the
square-root function as an explicit parameter `sqrtFn`; theorems either
hold for every such function or constrain it only at the rational points
where the claim evaluates it.
-/

/-- 2D vector over ℚ, embedding `glam::Vec2` (`f32` components). -/
structure Vec2 where
  x : ℚ
  y : ℚ
deriving DecidableEq, Repr

namespace Vec2

instance : Zero Vec2 := ⟨⟨0, 0⟩⟩

instance : Add Vec2 := ⟨fun a b => ⟨a.x + b.x, a.y + b.y⟩⟩

instance : Sub Vec2 := ⟨fun a b => ⟨a.x - b.x, a.y - b.y⟩⟩

instance : Neg Vec2 := ⟨fun a => ⟨-a.x, -a.y⟩⟩

/-- `Vec2 * f32` componentwise scaling (glam's `Mul<f32> for Vec2`). -/
instance : HMul Vec2 ℚ Vec2 := ⟨fun v s => ⟨v.x * s, v.y * s⟩⟩

/-- `Vec2 / f32` componentwise division (glam's `Div<f32> for Vec2`). -/
instance : HDiv Vec2 ℚ Vec2 := ⟨fun v s => ⟨v.x / s, v.y / s⟩⟩

/-- Componentwise minimum (`Vec2::min`). -/
def vmin (a b : Vec2) : Vec2 := ⟨min a.x b.x, min a.y b.y⟩

/-- Componentwise maximum (`Vec2::max`). -/
def vmax (a b : Vec2) : Vec2 := ⟨max a.x b.x, max a.y b.y⟩

/-- `Vec2::clamp(min, max)` : componentwise clamp. -/
def clampV (v lo hi : Vec2) : Vec2 := vmin (vmax v lo) hi

/-- `Vec2::length_squared`. -/
def lengthSq (v : Vec2) : ℚ := v.x * v.x + v.y * v.y

/-- Squared euclidean distance; embeds every comparison of
`Vec2::distance` against a nonnegative constant. -/
def distSq (a b : Vec2) : ℚ := lengthSq (a - b)

@[simp] theorem add_def (a b : Vec2) : a + b = ⟨a.x + b.x, a.y + b.y⟩ := rfl

@[simp] theorem sub_def (a b : Vec2) : a - b = ⟨a.x - b.x, a.y - b.y⟩ := rfl

@[simp] theorem neg_def (a : Vec2) : -a = ⟨-a.x, -a.y⟩ := rfl

@[simp] theorem mul_def (a : Vec2) (s : ℚ) : a * s = ⟨a.x * s, a.y * s⟩ := rfl

@[simp] theorem div_def (a : Vec2) (s : ℚ) : a / s = ⟨a.x / s, a.y / s⟩ := rfl

@[simp] theorem zero_def : (0 : Vec2) = ⟨0, 0⟩ := rfl

theorem ext_iff {a b : Vec2} : a = b ↔ a.x = b.x ∧ a.y = b.y := by
  cases a; cases b; simp

end Vec2

/-- `EPSILON = 1e-3` (shared by `quadtree.rs` and `qtv.rs`). -/
def EPSILON : ℚ := 1 / 1000

/-- Axis-aligned box, embedding `BoundingBox2D` from `src/quadtree.rs`. -/
structure BoundingBox2D where
  center : Vec2
  width : ℚ
  height : ℚ
deriving DecidableEq, Repr

namespace BoundingBox2D

/-- `BoundingBox2D::section`: quadrant of a point, bit 0 = east, bit 1 =
north; ties fall to the unset bit.  The source builds the value with
bitwise or on disjoint bits, rendered here as a sum. -/
def «section» (bb : BoundingBox2D) (loc : Vec2) : ℕ :=
  (if loc.y > bb.center.y then 2 else 0) + (if loc.x > bb.center.x then 1 else 0)

/-- `BoundingBox2D::sub_quadrant`: child box of a quadrant, half extents,
center shifted by a quarter extent along each axis. -/
def sub_quadrant (bb : BoundingBox2D) (s : ℕ) : BoundingBox2D :=
  { center := ⟨(if s % 2 = 1 then bb.center.x + 1/4 * bb.width else bb.center.x - 1/4 * bb.width),
               (if s / 2 % 2 = 1 then bb.center.y + 1/4 * bb.height else bb.center.y - 1/4 * bb.height)⟩
    width := bb.width * (1/2)
    height := bb.height * (1/2) }

/-- Membership in the closed box: the containment predicate used by the
spec's "subquadrant(classify(p)) produces a box containing p" and by the
tree invariants (spec §3, §8). -/
def inClosedBox (p : Vec2) (bb : BoundingBox2D) : Prop :=
  bb.center.x - bb.width / 2 ≤ p.x ∧ p.x ≤ bb.center.x + bb.width / 2 ∧
  bb.center.y - bb.height / 2 ≤ p.y ∧ p.y ≤ bb.center.y + bb.height / 2

instance (p : Vec2) (bb : BoundingBox2D) : Decidable (inClosedBox p bb) := by
  unfold inClosedBox; infer_instance

theorem section_le_three (bb : BoundingBox2D) (p : Vec2) : bb.«section» p ≤ 3 := by
  unfold «section»; split <;> split <;> simp

/-- Classification sends a point of the closed box into the closed
sub-box of its own quadrant. -/
theorem inClosedBox_sub_quadrant_section {p : Vec2} {bb : BoundingBox2D}
    (h : inClosedBox p bb) : inClosedBox p (bb.sub_quadrant (bb.«section» p)) := by
  obtain ⟨h1, h2, h3, h4⟩ := h
  unfold «section» sub_quadrant inClosedBox
  by_cases hy : p.y > bb.center.y <;> by_cases hx : p.x > bb.center.x <;>
    simp only [hy, hx, if_true, if_false, ite_true, ite_false] <;>
    norm_num <;>
    exact ⟨by linarith, by linarith, by linarith, by linarith⟩

end BoundingBox2D

/-!
## The pointer quadtree of `src/quadtree.rs`

`QuadTree<'a, T>` keeps a borrowed `data: Option<&'a T>` payload that
carries no numeric information (spec §9 explicitly drops it); the
embedding omits it.  The four-slot `children: Vec<Option<Self>>` becomes
four `Option` fields.  A leaf stores its mass-weighted position in
`position` (`position * mass` at creation), exactly as the source does.
-/

inductive QuadTree where
  | mk (c0 c1 c2 c3 : Option QuadTree) (boundary : BoundingBox2D) (mass : ℚ) (position : Vec2)

namespace QuadTree

def boundary : QuadTree → BoundingBox2D
  | mk _ _ _ _ bb _ _ => bb

def mass : QuadTree → ℚ
  | mk _ _ _ _ _ m _ => m

def position : QuadTree → Vec2
  | mk _ _ _ _ _ _ p => p

/-- `children[q]` (out-of-range indices read as empty; the source only
ever uses `section` results 0–3). -/
def child : QuadTree → ℕ → Option QuadTree
  | mk a _ _ _ _ _ _, 0 => a
  | mk _ b _ _ _ _ _, 1 => b
  | mk _ _ c _ _ _ _, 2 => c
  | mk _ _ _ d _ _ _, 3 => d
  | _, _ => none

/-- `children[q] = Some c`. -/
def setChild : QuadTree → ℕ → QuadTree → QuadTree
  | mk _ b c d bb m p, 0, t => mk (some t) b c d bb m p
  | mk a _ c d bb m p, 1, t => mk a (some t) c d bb m p
  | mk a b _ d bb m p, 2, t => mk a b (some t) d bb m p
  | mk a b c _ bb m p, 3, t => mk a b c (some t) bb m p
  | t, _, _ => t

/-- `QuadTree::is_leaf`: no child slot is occupied. -/
def is_leaf : QuadTree → Bool
  | mk a b c d _ _ _ => a.isNone && b.isNone && c.isNone && d.isNone

/-- `QuadTree::update_mass`: `position += p * m; mass += m`. -/
def update_mass : QuadTree → Vec2 → ℚ → QuadTree
  | mk a b c d bb m0 p0, p, m => mk a b c d bb (m0 + m) (p0 + p * m)

/-- `QuadTree::new_leaf` (the dropped `data` argument omitted); callers
pass the mass-weighted position. -/
def new_leaf (pos : Vec2) (m : ℚ) (bb : BoundingBox2D) : QuadTree :=
  mk none none none none bb m pos

/-- `QuadTree::new`: empty tree on a boundary. -/
def new (bb : BoundingBox2D) : QuadTree :=
  mk none none none none bb 0 0

/-- `QuadTree::position()`: centroid, `position / mass`. -/
def centroid (t : QuadTree) : Vec2 := t.position / t.mass

theorem sizeOf_child_lt {t c : QuadTree} {q : ℕ} (h : t.child q = some c) :
    sizeOf c < sizeOf t := by
  rcases t with ⟨a, b, c', d, bb, m, p⟩
  rcases q with - | q
  · cases a <;> simp_all [child]; omega
  rcases q with - | q
  · cases b <;> simp_all [child]; omega
  rcases q with - | q
  · cases c' <;> simp_all [child]; omega
  rcases q with - | q
  · cases d <;> simp_all [child]; omega
  simp [child] at h

end QuadTree

/-- Sum of a list of vectors (left fold, as any iterative Rust sum). -/
def vecSum (l : List Vec2) : Vec2 := l.foldl (· + ·) 0

/-- Outcomes of `QuadTree::insert` that do not produce a tree:
`panicZeroMass` is the `panic!("Mass in QuadTree may not be 0")` guard;
`diverged` models the source's inner subdivision `while` loop running
past every bound (which can happen only for positions outside the
current box — the fuel supplied below provably suffices inside it). -/
inductive InsertErr where
  | panicZeroMass
  | diverged
deriving DecidableEq, Repr

/-- Fuel bound for the subdivision chain on a box: any `k` with
`width² + height² < 4^k · ε²` ends the chain; `⌈(w²+h²)/ε²⌉ + 1`
is such a `k` because `4^k ≥ k + 1`. -/
def chainFuel (bb : BoundingBox2D) : ℕ :=
  ((bb.width ^ 2 + bb.height ^ 2) / EPSILON ^ 2).ceil.toNat + 1

namespace QuadTree

/-- The inner `while quadrant == leaf_quadrant` loop of
`QuadTree::insert` (lines 88–111): starting from the just-emptied former
leaf `nd` (mass already updated), push the old leaf (weighted position
`lposW`, mass `lm`, centroid `lpos`) down through freshly created
internal nodes until it separates from the new body `p`/`m`, then
install both leaves.  Each created internal node carries only
(`lposW`, `lm`), exactly as the source's `new_leaf(None, leaf_position,
leaf_mass, ...)` does. -/
def chainInto (fuel : ℕ) (nd : QuadTree) (p : Vec2) (m : ℚ) (lposW : Vec2) (lm : ℚ)
    (lpos : Vec2) : Option QuadTree :=
  let q := nd.boundary.«section» p
  let lq := nd.boundary.«section» lpos
  if q = lq then
    match fuel with
    | 0 => none
    | fuel + 1 => do
      let sub := nd.boundary.sub_quadrant lq
      let childBase := new_leaf lposW lm sub
      let c ← chainInto fuel childBase p m lposW lm lpos
      some (nd.setChild lq c)
  else
    some ((nd.setChild lq (new_leaf lposW lm (nd.boundary.sub_quadrant lq))).setChild q
      (new_leaf (p * m) m (nd.boundary.sub_quadrant q)))

/-- The leaf-stop block of `QuadTree::insert` (lines 66–114 with
`parent.is_leaf()` true): recompute the quadrant, update the parent's
mass, then ε-merge or run the subdivision chain.  `none` models the
chain diverging — no panic can arise below the top guard, which the
`Option` codomain records by type. -/
def insertLeafStop (t : QuadTree) (p : Vec2) (m : ℚ) : Option QuadTree :=
  let lposW := t.position
  let lm := t.mass
  let lpos := lposW / lm
  let t1 := t.update_mass p m
  if Vec2.distSq p lpos < EPSILON ^ 2 then some t1
  else chainInto (chainFuel t.boundary) t1 p m lposW lm lpos

/-- `QuadTree::insert` after its two top guards: the walk down existing
children (updating mass sums only when descending into an occupied
slot — the slot replacement and the mass update are written fused per
quadrant), then either installation in an empty slot, an ε-merge, or
the subdivision chain. -/
def insertGo : QuadTree → Vec2 → ℚ → Option QuadTree
  | .mk a b c d bb m0 p0, p, m =>
    let t := QuadTree.mk a b c d bb m0 p0
    if t.is_leaf then insertLeafStop t p m
    else
      match bb.«section» p, a, b, c, d with
      | 0, some ca, _, _, _ =>
        (insertGo ca p m).map (fun c' => QuadTree.mk (some c') b c d bb (m0 + m) (p0 + p * m))
      | 1, _, some cb, _, _ =>
        (insertGo cb p m).map (fun c' => QuadTree.mk a (some c') c d bb (m0 + m) (p0 + p * m))
      | 2, _, _, some cc, _ =>
        (insertGo cc p m).map (fun c' => QuadTree.mk a b (some c') d bb (m0 + m) (p0 + p * m))
      | 3, _, _, _, some cd =>
        (insertGo cd p m).map (fun c' => QuadTree.mk a b c (some c') bb (m0 + m) (p0 + p * m))
      | 0, none, _, _, _ => some (t.setChild 0 (new_leaf (p * m) m (bb.sub_quadrant 0)))
      | 1, _, none, _, _ => some (t.setChild 1 (new_leaf (p * m) m (bb.sub_quadrant 1)))
      | 2, _, _, none, _ => some (t.setChild 2 (new_leaf (p * m) m (bb.sub_quadrant 2)))
      | 3, _, _, _, none => some (t.setChild 3 (new_leaf (p * m) m (bb.sub_quadrant 3)))
      | q + 4, _, _, _, _ =>
        some (t.setChild (q + 4) (new_leaf (p * m) m (bb.sub_quadrant (q + 4))))

/-- `QuadTree::insert(position, mass)`: the `mass == 0` panic guard, the
first-body shortcut (`parent.mass == 0.0`), then the walk. -/
def insert (t : QuadTree) (p : Vec2) (m : ℚ) : Except InsertErr QuadTree :=
  if m = 0 then .error .panicZeroMass
  else if t.mass = 0 then
    .ok (match t with | mk a b c d bb _ _ => mk a b c d bb m (p * m))
  else
    match insertGo t p m with
    | some t' => .ok t'
    | none => .error .diverged

mutual

/-- `QuadTree::stack(position, theta)`: the LIFO worklist rendered as a
recursion (each tree node enters the worklist at most once, so the
emitted collection is the same; only the emission order differs, which
no claim depends on).  `s/dist < theta` is embedded squared:
`s² < θ²·dist²`, equivalent for nonnegative `s`, `θ`, `dist`; the
self-exclusion `dist > EPSILON` becomes `dist² > ε²`. -/
def stack : QuadTree → Vec2 → ℚ → List QuadTree
  | .mk a b c d bb m0 p0, qp, theta =>
    let t := QuadTree.mk a b c d bb m0 p0
    let s := max bb.width bb.height
    let d2 := Vec2.distSq (p0 / m0) qp
    if (decide (s ^ 2 < theta ^ 2 * d2) || t.is_leaf) && decide (EPSILON ^ 2 < d2) then [t]
    else stackO a qp theta ++ stackO b qp theta ++ stackO c qp theta ++ stackO d qp theta

/-- Worklist contribution of one optional child slot (`None` children
of `children` are skipped by the `for child in ... { match child ... }`
loop). -/
def stackO : Option QuadTree → Vec2 → ℚ → List QuadTree
  | some ct, qp, theta => stack ct qp theta
  | none, _, _ => []

end

mutual

/-- All leaf nodes of a tree, in child order. -/
def leaves : QuadTree → List QuadTree
  | .mk a b c d bb m0 p0 =>
    let t := QuadTree.mk a b c d bb m0 p0
    if t.is_leaf then [t]
    else leavesO a ++ leavesO b ++ leavesO c ++ leavesO d

/-- Leaves below an optional child slot. -/
def leavesO : Option QuadTree → List QuadTree
  | some ct => leaves ct
  | none => []

end

/-- Total mass of the leaves below a node. -/
def leafMassSum (t : QuadTree) : ℚ := ((t.leaves).map mass).sum

/-- Sum of the leaves' stored mass-weighted positions below a node
(every leaf's `position` field is `mᵢ·pᵢ`, so this is `Σ mᵢ·pᵢ`). -/
def leafPosSum (t : QuadTree) : Vec2 := vecSum ((t.leaves).map position)

mutual

/-- Spec §3/§8 invariant, decidably: every internal node's accumulated
mass is the sum of the masses of the leaves beneath it, and its
accumulated position is `Σ mᵢ·pᵢ` over those leaves. -/
def massPosInvariant : QuadTree → Bool
  | .mk a b c d bb m0 p0 =>
    let t := QuadTree.mk a b c d bb m0 p0
    (t.is_leaf || (decide (t.mass = t.leafMassSum) && decide (t.position = t.leafPosSum))) &&
      massPosInvariantO a && massPosInvariantO b && massPosInvariantO c && massPosInvariantO d

/-- The invariant on an optional child slot; empty slots hold trivially. -/
def massPosInvariantO : Option QuadTree → Bool
  | some ct => massPosInvariant ct
  | none => true

end

/-- Structural induction through the `child` accessor. -/
theorem inductionOn {P : QuadTree → Prop}
    (h : ∀ t : QuadTree, (∀ q c, t.child q = some c → P c) → P t) : ∀ t, P t := by
  have key : ∀ n t, sizeOf t ≤ n → P t := by
    intro n
    induction n with
    | zero =>
      intro t ht
      exact h t (fun q c hc => absurd (sizeOf_child_lt hc) (by omega))
    | succ n ih =>
      intro t ht
      exact h t (fun q c hc => ih c (by have := sizeOf_child_lt hc; omega))
  exact fun t => key (sizeOf t) t le_rfl

end QuadTree

/-!
## The arena quadtree of `src/qtv.rs`

`QuadTreeVec` stores nodes in a flat `Vec<Node>`; `Node::Root` holds four
child indices with `u32::MAX` as the empty sentinel (embedded as
`Option ℕ`), an accumulated mass and an accumulated mass-weighted
position; `Node::Leaf` holds a raw position and a mass.  Rust's panicking
arena indexing is embedded with a default node (all concrete evaluations
stay in range); the unbounded `while` loops take fuel, with `none`
modelling divergence.
-/

namespace qtv

inductive Node where
  | root (i0 i1 i2 i3 : Option ℕ) (mass : ℚ) (pos : Vec2)
  | leaf (mass : ℚ) (pos : Vec2)
deriving DecidableEq, Repr

namespace Node

/-- `Node::new_leaf`. -/
def new_leaf (pos : Vec2) (mass : ℚ) : Node := .leaf mass pos

/-- `Node::new_root`: note the source stores `pos * mass`. -/
def new_root (pos : Vec2) (mass : ℚ) (i0 i1 i2 i3 : Option ℕ) : Node :=
  .root i0 i1 i2 i3 mass (pos * mass)

def is_leaf : Node → Bool
  | .leaf _ _ => true
  | .root _ _ _ _ _ _ => false

def is_root (n : Node) : Bool := !n.is_leaf

/-- `Node::get_center`. -/
def get_center : Node → Vec2
  | .root _ _ _ _ m p => p / m
  | .leaf _ p => p

def mass : Node → ℚ
  | .root _ _ _ _ m _ => m
  | .leaf m _ => m

def pos : Node → Vec2
  | .root _ _ _ _ _ p => p
  | .leaf _ p => p

end Node

/-- `indices[s]` for a `Root`'s four index slots (`s` is a `section`
result, hence 0–3; 3 is the fall-through). -/
def idxGet (i0 i1 i2 i3 : Option ℕ) (s : ℕ) : Option ℕ :=
  match s with
  | 0 => i0
  | 1 => i1
  | 2 => i2
  | _ => i3

/-- `indices[s] = v`. -/
def idxSet (i0 i1 i2 i3 : Option ℕ) (s : ℕ) (v : ℕ) :
    Option ℕ × Option ℕ × Option ℕ × Option ℕ :=
  match s with
  | 0 => (some v, i1, i2, i3)
  | 1 => (i0, some v, i2, i3)
  | 2 => (i0, i1, some v, i3)
  | _ => (i0, i1, i2, some v)

/-- Junk node for the (panicking, never exercised) out-of-range arena
read. -/
def junkNode : Node := .leaf 0 0

structure QuadTreeVec where
  children : List Node
  boundary : BoundingBox2D
  root : ℕ
deriving DecidableEq, Repr

/-- The `while let Node::Root` walk of `QuadTreeVec::insert` (lines
50–66): update each visited root's mass and position sum, then either
install `newIndex` in an empty slot and stop, or descend.  Fuel bounds
the path length (the arena length suffices for any acyclic arena). -/
def walkV (fuel : ℕ) (children : List Node) (bb : BoundingBox2D) (rootIdx : ℕ)
    (newPos : Vec2) (newMass : ℚ) (newIndex : ℕ) :
    Option (List Node × BoundingBox2D × ℕ) :=
  match fuel, children.getD rootIdx junkNode with
  | _, .leaf _ _ => some (children, bb, rootIdx)
  | 0, .root _ _ _ _ _ _ => none
  | fuel + 1, .root i0 i1 i2 i3 m p =>
    let m := m + newMass
    let p := p + newPos * newMass
    let sec := bb.«section» newPos
    match idxGet i0 i1 i2 i3 sec with
    | none =>
      let (j0, j1, j2, j3) := idxSet i0 i1 i2 i3 sec newIndex
      some (children.set rootIdx (.root j0 j1 j2 j3 m p), bb, rootIdx)
    | some next =>
      walkV fuel (children.set rootIdx (.root i0 i1 i2 i3 m p)) (bb.sub_quadrant sec)
        next newPos newMass newIndex

/-- The `while let Node::Leaf` split loop of `QuadTreeVec::insert`
(lines 79–109): push a copy of the occupant leaf to the back, replace
the slot by a fresh root (whose stored position is
`(pos + new_pos) * (mass + new_mass)` — exactly the source's
`new_root(pos + new_pos, mass + new_mass, ind)`), and finish or descend. -/
def splitV (fuel : ℕ) (children : List Node) (bb : BoundingBox2D) (rootIdx : ℕ)
    (newPos : Vec2) (newMass : ℚ) (newIndex : ℕ) : Option (List Node) :=
  match fuel, children.getD rootIdx junkNode with
  | _, .root _ _ _ _ _ _ => some children
  | 0, .leaf _ _ => none
  | fuel + 1, .leaf m p =>
    let children1 := children ++ [Node.leaf m p]
    let oldIndex := children1.length - 1
    let secOld := bb.«section» p
    let (j0, j1, j2, j3) := idxSet none none none none secOld oldIndex
    let secNew := bb.«section» newPos
    match idxGet j0 j1 j2 j3 secNew with
    | none =>
      let (k0, k1, k2, k3) := idxSet j0 j1 j2 j3 secNew newIndex
      some (children1.set rootIdx (Node.new_root (p + newPos) (m + newMass) k0 k1 k2 k3))
    | some _ =>
      splitV fuel (children1.set rootIdx (Node.new_root (p + newPos) (m + newMass) j0 j1 j2 j3))
        (bb.sub_quadrant secNew) oldIndex newPos newMass newIndex

/-- `QuadTreeVec::insert`: append the new leaf (duplicated on the very
first insertion by the `len() == 1` shortcut, exactly as the source
does), walk, ε-merge, or split. -/
def QuadTreeVec.insert (tv : QuadTreeVec) (newPos : Vec2) (newMass : ℚ) :
    Option QuadTreeVec :=
  let children := tv.children ++ [Node.new_leaf newPos newMass]
  let newIndex := children.length - 1
  if children.length = 1 then
    some { tv with children := children ++ [Node.new_leaf newPos newMass] }
  else do
    let (children, bb, rootIdx) ←
      walkV children.length children tv.boundary tv.root newPos newMass newIndex
    match children.getD rootIdx junkNode with
    | .leaf m p =>
      if Vec2.distSq p newPos < EPSILON ^ 2 then
        some { tv with children := children.set rootIdx (Node.new_leaf p (m + newMass)) }
      else do
        let children' ← splitV (chainFuel bb) children bb rootIdx newPos newMass newIndex
        some { tv with children := children' }
    | .root _ _ _ _ _ _ => some { tv with children := children }

/-- One frontier level of `QuadTreeVec::stack`: emit leaves
unconditionally (the source has no ε self-exclusion here) and roots
meeting `s/dist < θ` (squared form), pushing other roots' children. -/
def stackLevel (children : List Node) (qp : Vec2) (theta : ℚ) (s : ℚ) :
    List ℕ → List Node × List ℕ
  | [] => ([], [])
  | i :: rest =>
    let pr := stackLevel children qp theta s rest
    match children.getD i junkNode with
    | .root i0 i1 i2 i3 m p =>
      let d2 := Vec2.distSq (Node.get_center (.root i0 i1 i2 i3 m p)) qp
      if s ^ 2 < theta ^ 2 * d2 then (.root i0 i1 i2 i3 m p :: pr.1, pr.2)
      else (pr.1, ([i0, i1, i2, i3].filterMap id) ++ pr.2)
    | .leaf m p => (.leaf m p :: pr.1, pr.2)

/-- The level loop of `QuadTreeVec::stack` (`stack`/`new_stack` with `s`
halved between levels); fuel bounds the depth, which the arena length
covers for any acyclic arena. -/
def stackLoop (children : List Node) (qp : Vec2) (theta : ℚ) :
    ℕ → ℚ → List ℕ → List Node
  | 0, _, _ => []
  | fuel + 1, s, lvl =>
    let (ems, nxt) := stackLevel children qp theta s lvl
    ems ++ (if nxt.isEmpty then [] else stackLoop children qp theta fuel (s * (1/2)) nxt)

/-- `QuadTreeVec::stack(position, theta)`. -/
def QuadTreeVec.stack (tv : QuadTreeVec) (qp : Vec2) (theta : ℚ) : List Node :=
  if tv.children.isEmpty then []
  else
    stackLoop tv.children qp theta (tv.children.length + 1)
      (max tv.boundary.width tv.boundary.height) [0]

/-- `QuadTreeVec::new`. -/
def QuadTreeVec.new (bb : BoundingBox2D) : QuadTreeVec :=
  { children := [], boundary := bb, root := 0 }

end qtv

/-!
## The simulator of `src/simulator.rs`

One tick (`simulation_step`) is `calculate_forces` then
`apply_node_force` then `update_node_position`.  The per-tick worker
threads each fill a private force vector over their disjoint index slice
and merge it into the shared accumulator under a mutex; since merging is
pointwise rational addition, the final accumulator value is
interleaving-independent, and the embedding computes it as the
left-to-right sum of the per-thread vectors (plus the spring deltas,
which the source also merges under the same mutex).  Rust panics are
surfaced as `SimPanic` values: the integer division `node_count /
thread_count` with a zero divisor, the tree's zero-mass panic, and
out-of-range spring indexing.
-/

/-- `RigidBody2D` from `src/properties.rs`. -/
structure RigidBody2D where
  position : Vec2
  velocity : Vec2
  mass : ℚ
  fixed : Bool
deriving DecidableEq, Repr

/-- `RigidBody2D::new`: zero velocity, not fixed. -/
def RigidBody2D.new (p : Vec2) (m : ℚ) : RigidBody2D := ⟨p, 0, m, false⟩

/-- `Spring` from `src/properties.rs`. -/
structure Spring where
  rb1 : ℕ
  rb2 : ℕ
  spring_stiffness : ℚ
  spring_neutral_len : ℚ
deriving DecidableEq, Repr

/-- Modelled from the spec: `RigidBody2D::total_velocity` is called by
`Simulator::update_node_position` but its definition is not under
`src/`; spec §4.E and the glossary freeze a body when "its speed
‖v‖ falls below `freeze_threshold`", so it is the euclidean norm of the
velocity, taken through the abstract square root `sqrtFn`. -/
def RigidBody2D.total_velocity (sqrtFn : ℚ → ℚ) (rb : RigidBody2D) : ℚ :=
  sqrtFn (Vec2.lengthSq rb.velocity)

/-- glam's `Vec2::normalize_or(fallback)`: `v / ‖v‖` through `sqrtFn`,
with the fallback on zero-length input. -/
def normalize_or (sqrtFn : ℚ → ℚ) (v fallback : Vec2) : Vec2 :=
  if Vec2.lengthSq v = 0 then fallback else v / sqrtFn (Vec2.lengthSq v)

/-- The builder-validated configuration fields of `Simulator`
(`SimulatorBuilder` panics at construction on `delta_time ≤ 0` and
`max_threads == 0`, so simulators reachable through the public API
satisfy those bounds; theorems state them as hypotheses). -/
structure SimConfig where
  repel : Bool
  spring : Bool
  gravity : Bool
  spring_stiffness : ℚ
  spring_neutral_length : ℚ
  delta_time : ℚ
  gravity_force : ℚ
  repel_force_const : ℚ
  damping : ℚ
  quadtree_theta : ℚ
  freeze_thresh : ℚ
  max_threads : ℕ
deriving DecidableEq, Repr

/-- `SimulatorBuilder::default()`. -/
def SimulatorBuilder.default : SimConfig :=
  { repel := true, spring := true, gravity := true, repel_force_const := 100,
    spring_stiffness := 100, spring_neutral_length := 2, gravity_force := 1,
    delta_time := 1/200, damping := 9/10, quadtree_theta := 3/4,
    freeze_thresh := 1/100, max_threads := 16 }

/-- The body store: the `rigid_bodies` and `springs` vectors. -/
structure SimState where
  rigid_bodies : List RigidBody2D
  springs : List Spring
deriving DecidableEq, Repr

/-- Rust panics a tick can hit, by site. -/
inductive SimPanic where
  | divideByZero
  | insertPanic
  | insertDiverged
  | indexOutOfBounds
deriving DecidableEq, Repr

namespace Simulator

/-- `Simulator::repel_force`. -/
def repel_force (sqrtFn : ℚ → ℚ) (repel_force_const : ℚ) (n1 n2 : RigidBody2D) : Vec2 :=
  let dir_vec := n2.position - n1.position
  if Vec2.lengthSq dir_vec = 0 then 0
  else
    let f := -repel_force_const * |n1.mass * n2.mass| / Vec2.lengthSq dir_vec
    let force := normalize_or sqrtFn dir_vec 0 * f
    Vec2.clampV force ⟨-100000, -100000⟩ ⟨100000, 100000⟩

/-- `Simulator::compute_spring_force` (note: uses the simulator's
stiffness and neutral length, not the spring's own fields). -/
def compute_spring_force (sqrtFn : ℚ → ℚ) (cfg : SimConfig) (n1 n2 : RigidBody2D) : Vec2 :=
  let direction_vec := n2.position - n1.position
  let force_magnitude :=
    cfg.spring_stiffness * (sqrtFn (Vec2.lengthSq direction_vec) - cfg.spring_neutral_length)
  normalize_or sqrtFn direction_vec 0 * (-force_magnitude)

/-- `Simulator::compute_center_gravity`. -/
def compute_center_gravity (gravity_force : ℚ) (node : RigidBody2D) : Vec2 :=
  -node.position * node.mass * gravity_force

/-- `build_quadtree`: bounding box of all positions, then insert every
body.  Rust folds `min`/`max` from `±∞`; over a nonempty store that
equals folding from the first position, and the empty store never
reaches this function (`calculate_forces` panics first on the `0 / 0`
thread division). -/
def build_quadtree (bodies : List RigidBody2D) : Except InsertErr QuadTree :=
  let ps := bodies.map RigidBody2D.position
  let mn := ps.foldl Vec2.vmin (ps.headD 0)
  let mx := ps.foldl Vec2.vmax (ps.headD 0)
  let dir := mx - mn
  let boundary : BoundingBox2D := ⟨dir / (2 : ℚ) + mn, dir.x, dir.y⟩
  bodies.foldlM (fun t rb => QuadTree.insert t rb.position rb.mass) (QuadTree.new boundary)

/-- One worker of `Simulator::spawn_physics_thread`: a private force
vector over the whole body count, filled for the indices in
`[startIndex, endIndex)`. -/
def spawn_physics_thread (sqrtFn : ℚ → ℚ) (cfg : SimConfig) (startIndex endIndex nodeCount : ℕ)
    (bodies : List RigidBody2D) (tree : QuadTree) : List Vec2 :=
  (List.range' startIndex (endIndex - startIndex)).foldl
    (fun fv i =>
      let rb := bodies.getD i (RigidBody2D.new 0 0)
      if rb.fixed then fv
      else
        let fRepel :=
          if cfg.repel then
            ((tree.stack rb.position cfg.quadtree_theta).map
              (fun na =>
                repel_force sqrtFn cfg.repel_force_const rb
                  (RigidBody2D.new na.centroid na.mass))).foldl (· + ·) 0
          else 0
        let fGrav := if cfg.gravity then compute_center_gravity cfg.gravity_force rb else 0
        fv.set i (fv.getD i 0 + (fRepel + fGrav)))
    (List.replicate nodeCount (0 : Vec2))

/-- Pointwise merge of a worker's private vector into the shared one. -/
def addVecLists (a b : List Vec2) : List Vec2 := List.zipWith (· + ·) a b

/-- One iteration of `Simulator::compute_spring_forces_edges`: subtract
the spring force at `rb1`, add it at `rb2`; Rust's panicking index
appears as `indexOutOfBounds`. -/
def spring_step (sqrtFn : ℚ → ℚ) (cfg : SimConfig) (s : SimState) (fv : List Vec2)
    (sp : Spring) : Except SimPanic (List Vec2) :=
  if sp.rb1 < s.rigid_bodies.length && sp.rb2 < s.rigid_bodies.length then
    let rb1 := s.rigid_bodies.getD sp.rb1 (RigidBody2D.new 0 0)
    let rb2 := s.rigid_bodies.getD sp.rb2 (RigidBody2D.new 0 0)
    let sf := compute_spring_force sqrtFn cfg rb1 rb2
    let fv1 := fv.set sp.rb1 (fv.getD sp.rb1 0 - sf)
    .ok (fv1.set sp.rb2 (fv1.getD sp.rb2 0 + sf))
  else .error .indexOutOfBounds

/-- The spring loop: fold `spring_step` over the spring list,
propagating the first panic. -/
def spring_fold (sqrtFn : ℚ → ℚ) (cfg : SimConfig) (s : SimState) :
    List Spring → List Vec2 → Except SimPanic (List Vec2)
  | [], fv => .ok fv
  | sp :: l, fv =>
    match spring_step sqrtFn cfg s fv sp with
    | .ok fv' => spring_fold sqrtFn cfg s l fv'
    | .error e => .error e

/-- `Simulator::compute_spring_forces_edges`. -/
def compute_spring_forces_edges (sqrtFn : ℚ → ℚ) (cfg : SimConfig) (s : SimState)
    (fv0 : List Vec2) : Except SimPanic (List Vec2) :=
  spring_fold sqrtFn cfg s s.springs fv0

/-- `Simulator::calculate_forces`: skipped entirely (spring pass
included) unless repel or gravity is enabled; otherwise partition the
indices over `min(node_count, max_threads)` workers — note the
panicking `node_count / thread_count` on an empty store — build the
tree, sum the workers' slices, then the spring pass. -/
def calculate_forces (sqrtFn : ℚ → ℚ) (cfg : SimConfig) (s : SimState) :
    Except SimPanic (List Vec2) :=
  let node_count := s.rigid_bodies.length
  if cfg.repel || cfg.gravity then
    let thread_count := min node_count cfg.max_threads
    if thread_count = 0 then .error .divideByZero
    else
      let nodes_per_thread := node_count / thread_count
      match build_quadtree s.rigid_bodies with
      | .error .panicZeroMass => .error .insertPanic
      | .error .diverged => .error .insertDiverged
      | .ok tree =>
        let threadSum :=
          (List.range thread_count).foldl
            (fun acc thread =>
              let extra := if thread = thread_count - 1 then node_count % thread_count else 0
              addVecLists acc
                (spawn_physics_thread sqrtFn cfg (thread * nodes_per_thread)
                  ((thread + 1) * nodes_per_thread + extra) node_count s.rigid_bodies tree))
            (List.replicate node_count (0 : Vec2))
        if cfg.spring then compute_spring_forces_edges sqrtFn cfg s threadSum
        else .ok threadSum
  else .ok (List.replicate node_count (0 : Vec2))

/-- Loop body of `Simulator::apply_node_force`:
`rb.velocity += node_force / rb.mass * delta_time`. -/
def apply_body (cfg : SimConfig) (rb : RigidBody2D) (f : Vec2) : RigidBody2D :=
  { rb with velocity := rb.velocity + f / rb.mass * cfg.delta_time }

/-- `Simulator::apply_node_force`: `v += F/m · Δt` for every body
(fixed ones included). -/
def apply_node_force (cfg : SimConfig) (fv : List Vec2) (bodies : List RigidBody2D) :
    List RigidBody2D :=
  List.zipWith (apply_body cfg) bodies fv

/-- Loop body of `Simulator::update_node_position`: a fixed body gets
its velocity zeroed and is skipped; others are damped, moved, and
frozen when the total velocity falls below the threshold. -/
def update_body (sqrtFn : ℚ → ℚ) (cfg : SimConfig) (rb : RigidBody2D) : RigidBody2D :=
  if rb.fixed then { rb with velocity := 0 }
  else
    let rb1 := { rb with velocity := rb.velocity * cfg.damping }
    let rb2 := { rb1 with position := rb1.position + rb1.velocity * cfg.delta_time }
    if cfg.freeze_thresh > rb2.total_velocity sqrtFn then { rb2 with fixed := true } else rb2

/-- `Simulator::update_node_position`. -/
def update_node_position (sqrtFn : ℚ → ℚ) (cfg : SimConfig) (bodies : List RigidBody2D) :
    List RigidBody2D :=
  bodies.map (update_body sqrtFn cfg)

/-- `Simulator::simulation_step`: one tick. -/
def simulation_step (sqrtFn : ℚ → ℚ) (cfg : SimConfig) (s : SimState) :
    Except SimPanic SimState :=
  match calculate_forces sqrtFn cfg s with
  | .error e => .error e
  | .ok fv =>
    let bodies1 := apply_node_force cfg fv s.rigid_bodies
    let bodies2 := update_node_position sqrtFn cfg bodies1
    .ok { s with rigid_bodies := bodies2 }

end Simulator

set_option maxRecDepth 100000

instance {ε α : Type} [DecidableEq ε] [DecidableEq α] : DecidableEq (Except ε α) := fun a b =>
  match a, b with
  | .ok x, .ok y => decidable_of_iff (x = y) (by simp)
  | .error x, .error y => decidable_of_iff (x = y) (by simp)
  | .ok _, .error _ => isFalse (by simp)
  | .error _, .ok _ => isFalse (by simp)

/-!
## Claim C1 — mass/centroid conservation in the tree
-/

/-- Σ of masses over the leaves reachable from arena index `i`
(spec §3: "accumulated mass equals the sum of masses beneath it"). -/
def qtv.subtreeMassSum (children : List qtv.Node) : ℕ → ℕ → ℚ
  | 0, _ => 0
  | fuel + 1, i =>
    match children.getD i qtv.junkNode with
    | .leaf m _ => m
    | .root i0 i1 i2 i3 _ _ =>
      (([i0, i1, i2, i3].filterMap id).map (qtv.subtreeMassSum children fuel)).sum

/-- Σ of `mᵢ·pᵢ` over the leaves reachable from arena index `i`
(spec §3: "the accumulated position sum equals Σ(mᵢ·pᵢ)"). -/
def qtv.subtreePosSum (children : List qtv.Node) : ℕ → ℕ → Vec2
  | 0, _ => 0
  | fuel + 1, i =>
    match children.getD i qtv.junkNode with
    | .leaf m p => p * m
    | .root i0 i1 i2 i3 _ _ =>
      vecSum (([i0, i1, i2, i3].filterMap id).map (qtv.subtreePosSum children fuel))

/-- A 10×10 box centered at the origin (the box used throughout the
repository's own quadtree tests). -/
def bbTen : BoundingBox2D := ⟨⟨0, 0⟩, 10, 10⟩

/-- C1 failing input for `QuadTree::insert`: bodies (−1,−1) mass 5 and
(−4,−4) mass 30 share root quadrant 0, forcing one subdivision chain. -/
def c1Tree : Except InsertErr QuadTree :=
  ((QuadTree.new bbTen).insert ⟨-1, -1⟩ 5).bind (fun t => t.insert ⟨-4, -4⟩ 30)

/-- C1 failing input for `QuadTreeVec::insert`: bodies (−1,−1) mass 5
and (1,1) mass 30, splitting the root leaf once. -/
def c1Tv : Option qtv.QuadTreeVec :=
  ((qtv.QuadTreeVec.new bbTen).insert ⟨-1, -1⟩ 5).bind (fun tv => tv.insert ⟨1, 1⟩ 30)

/-- C1: the mass/centroid conservation invariant is violated by both
insertion routines (code bug).  In `QuadTree::insert`, the internal node
created by the subdivision chain keeps only the old leaf's mass (5)
although the leaves beneath it total 35, so `massPosInvariant` fails on
the freshly built tree.  In `QuadTreeVec::insert`, the split stores
`(p₁+p₂)·(m₁+m₂) = (0,0)` as the root's accumulated position although
`Σ mᵢ·pᵢ = (25,25)` (the mass sum 35 is correct there). -/
theorem C1_mass_conservation_code_bug :
    c1Tree.map QuadTree.massPosInvariant = .ok false ∧
    c1Tree.map QuadTree.mass = .ok 35 ∧
    c1Tree.map (fun t => (t.child 0).map QuadTree.mass) = .ok (some 5) ∧
    c1Tree.map (fun t => (t.child 0).map QuadTree.leafMassSum) = .ok (some 35) ∧
    c1Tv.map (fun tv => (tv.children.getD tv.root qtv.junkNode).pos) = some ⟨0, 0⟩ ∧
    c1Tv.map (fun tv => (tv.children.getD tv.root qtv.junkNode).mass) = some 35 ∧
    c1Tv.map (fun tv => qtv.subtreePosSum tv.children tv.children.length tv.root) =
      some ⟨25, 25⟩ ∧
    c1Tv.map (fun tv => qtv.subtreeMassSum tv.children tv.children.length tv.root) =
      some 35 := by
  with_unfolding_all decide

/-!
## Claim C4 — coincident-insertion merge
-/

/-- C4 input on `QuadTree`: (1,1) mass 30, then (1,1) mass 60. -/
def c4Tree : Except InsertErr QuadTree :=
  ((QuadTree.new bbTen).insert ⟨1, 1⟩ 30).bind (fun t => t.insert ⟨1, 1⟩ 60)

/-- C4 input on `QuadTreeVec`. -/
def c4Tv : Option qtv.QuadTreeVec :=
  ((qtv.QuadTreeVec.new bbTen).insert ⟨1, 1⟩ 30).bind (fun tv => tv.insert ⟨1, 1⟩ 60)

/-- C4: inserting (1,1) mass 30 into an empty tree (root box `bbTen`
containing it) and then (1,1) mass 60 merges into a single leaf of mass
90 at (1,1) — the reachable structure holds no internal node.  For
`QuadTree` the root stays a leaf with mass 90 and stored weighted
position (90,90), i.e. centroid (1,1); for `QuadTreeVec` the root arena
entry is `Leaf { mass: 90, pos: (1,1) }` and no `Root` entry exists
anywhere in the arena. -/
theorem C4_coincident_merge :
    c4Tree.map QuadTree.is_leaf = .ok true ∧
    c4Tree.map QuadTree.mass = .ok 90 ∧
    c4Tree.map QuadTree.position = .ok ⟨90, 90⟩ ∧
    c4Tree.map QuadTree.centroid = .ok ⟨1, 1⟩ ∧
    c4Tv.map (fun tv => tv.children.getD tv.root qtv.junkNode) =
      some (qtv.Node.leaf 90 ⟨1, 1⟩) ∧
    c4Tv.map (fun tv => tv.children.all qtv.Node.is_leaf) = some true := by
  with_unfolding_all decide

/-!
## Claim C5 — classification totality and containment round-trip
-/

/-- C5 counterexample: the claim quantifies over *every* point `p`, but
for `p = (100, 0)` outside the 10×10 box at the origin, `section`
returns 1 and the corresponding sub-quadrant (x-range [0, 5]) does not
contain `p`. -/
theorem C5_counterexample_outside_point :
    bbTen.«section» ⟨100, 0⟩ = 1 ∧
    ¬ BoundingBox2D.inClosedBox ⟨100, 0⟩ (bbTen.sub_quadrant (bbTen.«section» ⟨100, 0⟩)) ∧
    0 < bbTen.width ∧ 0 < bbTen.height := by
  with_unfolding_all decide

/-- C5 (amended): for every box with positive extents and every point
`p` *of the closed box*, `section` returns a quadrant in {0,1,2,3}, a
tie on an axis falls to the lower-coordinate quadrant (the axis bit
stays 0), and the sub-quadrant of that quadrant contains `p`. -/
theorem C5_classify_total_and_roundtrip (p : Vec2) (bb : BoundingBox2D)
    (hw : 0 < bb.width) (hh : 0 < bb.height) (hp : BoundingBox2D.inClosedBox p bb) :
    bb.«section» p ≤ 3 ∧
    BoundingBox2D.inClosedBox p (bb.sub_quadrant (bb.«section» p)) ∧
    (p.x ≤ bb.center.x → bb.«section» p % 2 = 0) ∧
    (p.y ≤ bb.center.y → bb.«section» p / 2 % 2 = 0) := by
  refine ⟨bb.section_le_three p, BoundingBox2D.inClosedBox_sub_quadrant_section hp, ?_, ?_⟩
  · intro hx
    have hx' : ¬ (p.x > bb.center.x) := not_lt.mpr hx
    unfold BoundingBox2D.«section»
    rw [if_neg hx']
    rcases lt_or_le bb.center.y p.y with hy | hy
    · rw [if_pos hy]
    · rw [if_neg (not_lt.mpr hy)]
  · intro hy
    have hy' : ¬ (p.y > bb.center.y) := not_lt.mpr hy
    unfold BoundingBox2D.«section»
    rw [if_neg hy']
    rcases lt_or_le bb.center.x p.x with hx | hx
    · rw [if_pos hx]
    · rw [if_neg (not_lt.mpr hx)]

/-- C5 witness at `p = (5, 0)` (an x-axis boundary tie on the east
edge... in fact an interior point with a y-tie) in the 10×10 box. -/
theorem C5_classify_total_and_roundtrip_witness :
    0 < bbTen.width ∧ 0 < bbTen.height ∧ BoundingBox2D.inClosedBox ⟨5, 0⟩ bbTen ∧
    (bbTen.«section» ⟨5, 0⟩ ≤ 3 ∧
      BoundingBox2D.inClosedBox ⟨5, 0⟩ (bbTen.sub_quadrant (bbTen.«section» ⟨5, 0⟩)) ∧
      ((5 : ℚ) ≤ bbTen.center.x → bbTen.«section» ⟨5, 0⟩ % 2 = 0) ∧
      ((0 : ℚ) ≤ bbTen.center.y → bbTen.«section» ⟨5, 0⟩ / 2 % 2 = 0)) :=
  ⟨by with_unfolding_all decide, by with_unfolding_all decide, by with_unfolding_all decide,
    C5_classify_total_and_roundtrip ⟨5, 0⟩ bbTen (by with_unfolding_all decide)
      (by with_unfolding_all decide) (by with_unfolding_all decide)⟩

/-!
## Claim C6 — insert-mass precondition enforcement
-/

/-- C6 counterexample: the claim says every mass `m ≤ 0` panics, but
`QuadTree::insert` only checks `mass == 0.0`; inserting mass −1
returns normally. -/
theorem C6_counterexample_negative_mass_accepted :
    ((QuadTree.new bbTen).insert ⟨1, 1⟩ (-1)).toOption.isSome = true := by
  with_unfolding_all decide

/-- C6 (amended): `QuadTree::insert` panics exactly when the mass is 0 —
negative masses are accepted — and `QuadTreeVec::insert` performs no
mass check at all (here: mass 0 inserts without a panic). -/
theorem C6_insert_panics_iff_mass_zero :
    (∀ (t : QuadTree) (p : Vec2) (m : ℚ),
      t.insert p m = .error .panicZeroMass ↔ m = 0) ∧
    ((qtv.QuadTreeVec.new bbTen).insert ⟨1, 1⟩ 0).isSome = true := by
  constructor
  · intro t p m
    constructor
    · intro h
      by_contra hm
      unfold QuadTree.insert at h
      rw [if_neg hm] at h
      split at h
      · exact absurd h (by simp)
      · split at h
        · exact absurd h (by simp)
        · injection h with he
          exact InsertErr.noConfusion he
    · intro h
      unfold QuadTree.insert
      rw [if_pos h]
  · with_unfolding_all decide

/-!
## Claim C9 — repulsion force direction and concrete case
-/

def rbA : RigidBody2D := RigidBody2D.new ⟨0, 0⟩ 1

def rbB : RigidBody2D := RigidBody2D.new ⟨1, 0⟩ 1

/-- C9 counterexample: were the force on the body at the origin directed
from self to other (toward `(1,0)`) with magnitude `100·|1·1|/1`, it
would be `(100, 0)`; the code returns `(−100, 0)` — the direction is
from other to self.  (At this input the distance is 1, so the identity
square root is exact.) -/
theorem C9_counterexample_direction :
    Simulator.repel_force (fun x => x) 100 rbA rbB = ⟨-100, 0⟩ ∧
    Simulator.repel_force (fun x => x) 100 rbA rbB ≠ ⟨100, 0⟩ := by
  with_unfolding_all decide

theorem clamp_comp_neg (x C : ℚ) (hC : 0 ≤ C) :
    min (max (-x) (-C)) C = -(min (max x (-C)) C) := by
  rcases le_total x (-C) with h1 | h1 <;> rcases le_total x C with h2 | h2 <;>
    rcases le_total (-x) C with h3 | h3 <;>
      simp [min_def, max_def] <;> split_ifs <;> linarith

theorem clampV_window_neg (v : Vec2) :
    Vec2.clampV (-v) ⟨-100000, -100000⟩ ⟨100000, 100000⟩ =
      -(Vec2.clampV v ⟨-100000, -100000⟩ ⟨100000, 100000⟩) := by
  cases v
  simp only [Vec2.clampV, Vec2.vmin, Vec2.vmax, Vec2.neg_def, Vec2.ext_iff]
  exact ⟨clamp_comp_neg _ 100000 (by norm_num), clamp_comp_neg _ 100000 (by norm_num)⟩

theorem vec2_negneg (v : Vec2) : - -v = v := by
  cases v; simp [Vec2.ext_iff]

theorem repel_force_antisymm (sqrtFn : ℚ → ℚ) (k : ℚ) (n1 n2 : RigidBody2D) :
    Simulator.repel_force sqrtFn k n1 n2 = -Simulator.repel_force sqrtFn k n2 n1 := by
  unfold Simulator.repel_force normalize_or
  dsimp only
  have hdir : n1.position - n2.position = -(n2.position - n1.position) := by
    apply Vec2.ext_iff.mpr
    constructor
    · show n1.position.x - n2.position.x = -(n2.position.x - n1.position.x)
      ring
    · show n1.position.y - n2.position.y = -(n2.position.y - n1.position.y)
      ring
  have hlsneg : ∀ w : Vec2, Vec2.lengthSq (-w) = Vec2.lengthSq w := by
    intro w
    show -w.x * -w.x + -w.y * -w.y = w.x * w.x + w.y * w.y
    ring
  rw [hdir, hlsneg, mul_comm n2.mass n1.mass]
  generalize n2.position - n1.position = w
  by_cases hz : Vec2.lengthSq w = 0
  · rw [if_pos hz, if_pos hz]
    simp [Vec2.ext_iff]
  · rw [if_neg hz, if_neg hz, if_neg hz, if_neg hz]
    have hneg : -w / sqrtFn (Vec2.lengthSq w) * (-k * |n1.mass * n2.mass| / Vec2.lengthSq w) =
        -(w / sqrtFn (Vec2.lengthSq w) * (-k * |n1.mass * n2.mass| / Vec2.lengthSq w)) := by
      apply Vec2.ext_iff.mpr
      constructor
      · show -w.x / sqrtFn (Vec2.lengthSq w) * (-k * |n1.mass * n2.mass| / Vec2.lengthSq w) =
          -(w.x / sqrtFn (Vec2.lengthSq w) * (-k * |n1.mass * n2.mass| / Vec2.lengthSq w))
        ring
      · show -w.y / sqrtFn (Vec2.lengthSq w) * (-k * |n1.mass * n2.mass| / Vec2.lengthSq w) =
          -(w.y / sqrtFn (Vec2.lengthSq w) * (-k * |n1.mass * n2.mass| / Vec2.lengthSq w))
        ring
    rw [hneg, clampV_window_neg, vec2_negneg]

/-- C9 (amended): the repulsion force on `self` points from *other to
self* (pushing self away), with magnitude `k·|m₁·m₂|/r²`; in the
concrete two-body case (masses 1 at (0,0) and (1,0), constant 100) the
force on the body at the origin is (−100, 0) and the force on the other
body is (100, 0), and in general swapping the two bodies negates the
force.  The square-root function is only constrained at the concrete
squared distance 1. -/
theorem C9_repel_force_concrete_and_antisymmetric (sqrtFn : ℚ → ℚ) (h1 : sqrtFn 1 = 1) :
    Simulator.repel_force sqrtFn 100 rbA rbB = ⟨-100, 0⟩ ∧
    Simulator.repel_force sqrtFn 100 rbB rbA = ⟨100, 0⟩ ∧
    ∀ (k : ℚ) (n1 n2 : RigidBody2D),
      Simulator.repel_force sqrtFn k n1 n2 = -Simulator.repel_force sqrtFn k n2 n1 := by
  refine ⟨?_, ?_, fun k n1 n2 => repel_force_antisymm sqrtFn k n1 n2⟩ <;>
    · simp [Simulator.repel_force, normalize_or, rbA, rbB, RigidBody2D.new, Vec2.lengthSq,
        Vec2.clampV, Vec2.vmin, Vec2.vmax, h1, Vec2.ext_iff]
      norm_num [min_def, max_def]

/-- C9 witness: the identity function satisfies `sqrtFn 1 = 1`, and the
amended theorem applies to it. -/
theorem C9_repel_force_witness :
    ((fun x : ℚ => x) 1 = 1) ∧
    Simulator.repel_force (fun x => x) 100 rbA rbB = ⟨-100, 0⟩ :=
  ⟨rfl, (C9_repel_force_concrete_and_antisymmetric (fun x => x) rfl).1⟩

/-!
## Claims C7 and C10 — ticks with force families disabled
-/

theorem calculate_forces_off (sqrtFn : ℚ → ℚ) (cfg : SimConfig) (s : SimState)
    (hr : cfg.repel = false) (hg : cfg.gravity = false) :
    Simulator.calculate_forces sqrtFn cfg s =
      .ok (List.replicate s.rigid_bodies.length (0 : Vec2)) := by
  unfold Simulator.calculate_forces
  simp [hr, hg]

theorem zipWith_replicate_right {α β γ : Type} (f : α → β → γ) :
    ∀ (l : List α) (b : β), List.zipWith f l (List.replicate l.length b) =
      l.map (fun a => f a b)
  | [], _ => rfl
  | a :: l, b => by
    simp only [List.length_cons, List.replicate_succ, List.zipWith_cons_cons, List.map_cons]
    rw [zipWith_replicate_right f l b]

theorem apply_body_zero (cfg : SimConfig) (rb : RigidBody2D) :
    Simulator.apply_body cfg rb 0 = rb := by
  unfold Simulator.apply_body
  cases rb with
  | mk pos vel mass fx => simp [Vec2.ext_iff]

theorem apply_node_force_zero (cfg : SimConfig) (bodies : List RigidBody2D) :
    Simulator.apply_node_force cfg (List.replicate bodies.length 0) bodies = bodies := by
  unfold Simulator.apply_node_force
  rw [zipWith_replicate_right]
  conv_rhs => rw [← List.map_id bodies]
  exact List.map_congr_left (fun rb _ => apply_body_zero cfg rb)

theorem update_body_zero_vel (sqrtFn : ℚ → ℚ) (cfg : SimConfig) (rb : RigidBody2D)
    (hv : rb.velocity = 0) :
    (Simulator.update_body sqrtFn cfg rb).position = rb.position ∧
    (Simulator.update_body sqrtFn cfg rb).velocity = rb.velocity := by
  unfold Simulator.update_body
  split
  · simp [hv]
  · dsimp only
    rw [hv]
    have hvd : (0 : Vec2) * cfg.damping = 0 := by simp [Vec2.ext_iff]
    rw [hvd]
    have hpd : rb.position + (0 : Vec2) * cfg.delta_time = rb.position := by
      simp [Vec2.ext_iff]
    rw [hpd]
    split <;> simp

/-- C7 (amended): with repel, spring, and gravity disabled and
damping = 1, one tick leaves every body's position and velocity
unchanged *provided every body's velocity is zero* (e.g. a freshly
ingested store); a body with nonzero velocity is still integrated
(`p += v·Δt`), so the claim's unrestricted form fails. -/
theorem C7_zero_tick_identity (sqrtFn : ℚ → ℚ) (cfg : SimConfig) (s : SimState)
    (hr : cfg.repel = false) (hs : cfg.spring = false) (hg : cfg.gravity = false)
    (hd : cfg.damping = 1) (hv : ∀ rb ∈ s.rigid_bodies, rb.velocity = 0) :
    ∃ s', Simulator.simulation_step sqrtFn cfg s = .ok s' ∧
      s'.rigid_bodies.map RigidBody2D.position = s.rigid_bodies.map RigidBody2D.position ∧
      s'.rigid_bodies.map RigidBody2D.velocity = s.rigid_bodies.map RigidBody2D.velocity := by
  refine ⟨⟨Simulator.update_node_position sqrtFn cfg
      (Simulator.apply_node_force cfg (List.replicate s.rigid_bodies.length 0)
        s.rigid_bodies), s.springs⟩, ?_, ?_, ?_⟩
  · unfold Simulator.simulation_step
    rw [calculate_forces_off sqrtFn cfg s hr hg]
  · unfold Simulator.update_node_position
    rw [apply_node_force_zero]
    rw [List.map_map]
    exact List.map_congr_left
      (fun rb hrb => (update_body_zero_vel sqrtFn cfg rb (hv rb hrb)).1)
  · unfold Simulator.update_node_position
    rw [apply_node_force_zero]
    rw [List.map_map]
    exact List.map_congr_left
      (fun rb hrb => (update_body_zero_vel sqrtFn cfg rb (hv rb hrb)).2)

/-- The default configuration with all three force families off and no
damping (`damping = 1.0`). -/
def cfgAllOff : SimConfig :=
  { SimulatorBuilder.default with
    repel := false, spring := false, gravity := false, damping := 1 }

/-- C7 witness: a single resting body under the all-off configuration. -/
theorem C7_zero_tick_identity_witness :
    ∃ s', Simulator.simulation_step (fun x => x) cfgAllOff
        { rigid_bodies := [RigidBody2D.new ⟨3, 4⟩ 2], springs := [] } = .ok s' ∧
      s'.rigid_bodies.map RigidBody2D.position =
        [RigidBody2D.new ⟨3, 4⟩ 2].map RigidBody2D.position ∧
      s'.rigid_bodies.map RigidBody2D.velocity =
        [RigidBody2D.new ⟨3, 4⟩ 2].map RigidBody2D.velocity :=
  C7_zero_tick_identity (fun x => x) _ _ rfl rfl rfl rfl
    (by intro rb hrb; simp at hrb; rw [hrb]; rfl)

/-- C7 counterexample: a non-fixed body with velocity (1, 0) moves by
`v·Δt = (1/200, 0)` in one zero-force tick, so the claim's "for every
body store state" fails. -/
theorem C7_counterexample_moving_body :
    Simulator.simulation_step (fun x => x) cfgAllOff
      { rigid_bodies := [⟨⟨0, 0⟩, ⟨1, 0⟩, 1, false⟩], springs := [] } =
    .ok { rigid_bodies := [⟨⟨1/200, 0⟩, ⟨1, 0⟩, 1, false⟩], springs := [] } ∧
    (⟨1/200, 0⟩ : Vec2) ≠ ⟨0, 0⟩ := by
  with_unfolding_all decide

theorem apply_node_force_cfg_congr (cfg1 cfg2 : SimConfig)
    (hdt : cfg1.delta_time = cfg2.delta_time) :
    Simulator.apply_node_force cfg1 = Simulator.apply_node_force cfg2 := by
  unfold Simulator.apply_node_force Simulator.apply_body
  rw [hdt]

theorem update_node_position_cfg_congr (sqrtFn : ℚ → ℚ) (cfg1 cfg2 : SimConfig)
    (hdt : cfg1.delta_time = cfg2.delta_time) (hdamp : cfg1.damping = cfg2.damping)
    (hfz : cfg1.freeze_thresh = cfg2.freeze_thresh) :
    Simulator.update_node_position sqrtFn cfg1 = Simulator.update_node_position sqrtFn cfg2 := by
  unfold Simulator.update_node_position Simulator.update_body
  rw [hdt, hdamp, hfz]

/-- C10: in `calculate_forces` the spring pass sits inside the
`if repel || gravity` block, so with repel and gravity both disabled a
tick with springs enabled produces exactly the same state as one with
springs disabled — spring forces are computed only when repulsion or
gravity is enabled. -/
theorem C10_spring_requires_repel_or_gravity (sqrtFn : ℚ → ℚ) (cfg : SimConfig) (s : SimState) :
    Simulator.simulation_step sqrtFn
      { cfg with repel := false, gravity := false, spring := true } s =
    Simulator.simulation_step sqrtFn
      { cfg with repel := false, gravity := false, spring := false } s := by
  unfold Simulator.simulation_step
  rw [calculate_forces_off sqrtFn _ s rfl rfl, calculate_forces_off sqrtFn _ s rfl rfl]
  rw [apply_node_force_cfg_congr
      { cfg with repel := false, gravity := false, spring := true }
      { cfg with repel := false, gravity := false, spring := false } rfl,
    update_node_position_cfg_congr sqrtFn
      { cfg with repel := false, gravity := false, spring := true }
      { cfg with repel := false, gravity := false, spring := false } rfl rfl rfl]

/-!
## Claim C8 — freeze monotonicity
-/

theorem foldl_length_invariant {α β : Type} (f : List α → β → List α)
    (hf : ∀ fv b, (f fv b).length = fv.length) :
    ∀ (l : List β) (acc : List α), (List.foldl f acc l).length = acc.length
  | [], _ => rfl
  | b :: l, acc => by
    rw [List.foldl_cons, foldl_length_invariant f hf l (f acc b), hf]

theorem spawn_physics_thread_length (sqrtFn : ℚ → ℚ) (cfg : SimConfig)
    (a b n : ℕ) (bodies : List RigidBody2D) (tree : QuadTree) :
    (Simulator.spawn_physics_thread sqrtFn cfg a b n bodies tree).length = n := by
  unfold Simulator.spawn_physics_thread
  rw [foldl_length_invariant _ (fun fv i => by dsimp only; split <;> simp)]
  simp

theorem foldl_addVecLists_length {γ : Type} (v : γ → List Vec2) (n : ℕ)
    (hv : ∀ t, (v t).length = n) :
    ∀ (l : List γ) (acc : List Vec2), acc.length = n →
      (l.foldl (fun a t => Simulator.addVecLists a (v t)) acc).length = n
  | [], _, h => h
  | t :: l, acc, h => by
    rw [List.foldl_cons]
    exact foldl_addVecLists_length v n hv l _
      (by simp [Simulator.addVecLists, h, hv t])

theorem spring_step_length (sqrtFn : ℚ → ℚ) (cfg : SimConfig) (s : SimState)
    (fv r : List Vec2) (sp : Spring) (h : Simulator.spring_step sqrtFn cfg s fv sp = .ok r) :
    r.length = fv.length := by
  unfold Simulator.spring_step at h
  split at h
  · injection h with h'
    rw [← h']
    simp
  · exact absurd h (by simp)

theorem spring_fold_length (sqrtFn : ℚ → ℚ) (cfg : SimConfig) (s : SimState) :
    ∀ (l : List Spring) (acc r : List Vec2),
      Simulator.spring_fold sqrtFn cfg s l acc = .ok r → r.length = acc.length
  | [], acc, r => by
    intro h
    injection h with h'
    rw [h']
  | sp :: l, acc, r => by
    intro h
    unfold Simulator.spring_fold at h
    rcases hsp : Simulator.spring_step sqrtFn cfg s acc sp with e | acc'
    · rw [hsp] at h
      exact absurd h (by simp)
    · rw [hsp] at h
      rw [spring_fold_length sqrtFn cfg s l acc' r h,
        spring_step_length sqrtFn cfg s acc acc' sp hsp]

theorem calculate_forces_length (sqrtFn : ℚ → ℚ) (cfg : SimConfig) (s : SimState)
    (fv : List Vec2) (h : Simulator.calculate_forces sqrtFn cfg s = .ok fv) :
    fv.length = s.rigid_bodies.length := by
  unfold Simulator.calculate_forces at h
  dsimp only at h
  split at h
  · rename_i hflag
    split at h
    · exact absurd h (by simp)
    · rename_i htc
      rcases hbq : Simulator.build_quadtree s.rigid_bodies with e | tree
      · rw [hbq] at h
        cases e <;> exact absurd h (by simp)
      · rw [hbq] at h
        dsimp only at h
        have hts : ∀ acc : List Vec2, acc.length = s.rigid_bodies.length →
            ((List.range (min s.rigid_bodies.length cfg.max_threads)).foldl
              (fun acc thread =>
                Simulator.addVecLists acc
                  (Simulator.spawn_physics_thread sqrtFn cfg
                    (thread * (s.rigid_bodies.length / min s.rigid_bodies.length cfg.max_threads))
                    ((thread + 1) *
                        (s.rigid_bodies.length / min s.rigid_bodies.length cfg.max_threads) +
                      (if thread = min s.rigid_bodies.length cfg.max_threads - 1 then
                        s.rigid_bodies.length % min s.rigid_bodies.length cfg.max_threads
                      else 0))
                    s.rigid_bodies.length s.rigid_bodies tree)) acc).length =
            s.rigid_bodies.length :=
          fun acc hacc =>
            foldl_addVecLists_length _ s.rigid_bodies.length
              (fun t => spawn_physics_thread_length sqrtFn cfg _ _ _ s.rigid_bodies tree)
              _ acc hacc
        split at h
        · have := spring_fold_length sqrtFn cfg s s.springs _ fv h
          rw [this, hts _ (by simp)]
        · injection h with h'
          rw [← h', hts _ (by simp)]
  · injection h with h'
    rw [← h']
    simp

theorem getElem?_some_lt {α : Type} : ∀ (l : List α) (i : ℕ) (a : α),
    l[i]? = some a → i < l.length
  | [], i, a => by simp
  | x :: l, 0, a => by simp
  | x :: l, i + 1, a => by
    intro h
    rw [List.getElem?_cons_succ] at h
    simpa using Nat.succ_lt_succ (getElem?_some_lt l i a h)

theorem exists_getElem?_some {α : Type} : ∀ (l : List α) (i : ℕ),
    i < l.length → ∃ a, l[i]? = some a
  | [], i, h => by simp at h
  | x :: l, 0, _ => ⟨x, by simp⟩
  | x :: l, i + 1, h => by
    rw [List.getElem?_cons_succ]
    exact exists_getElem?_some l i (by simpa using h)

theorem zipWith_getElem?_some {α β γ : Type} (f : α → β → γ) :
    ∀ (l1 : List α) (l2 : List β) (i : ℕ) (a : α) (b : β),
      l1[i]? = some a → l2[i]? = some b → (List.zipWith f l1 l2)[i]? = some (f a b)
  | [], _, i, a, b => by simp
  | _ :: _, [], i, a, b => by simp
  | x :: l1, y :: l2, 0, a, b => by
    intro h1 h2
    simp at h1 h2
    simp [h1, h2]
  | x :: l1, y :: l2, i + 1, a, b => by
    intro h1 h2
    rw [List.getElem?_cons_succ] at h1 h2
    rw [List.zipWith_cons_cons, List.getElem?_cons_succ]
    exact zipWith_getElem?_some f l1 l2 i a b h1 h2

theorem map_getElem?_some {α β : Type} (g : α → β) : ∀ (l : List α) (i : ℕ) (a : α),
    l[i]? = some a → (l.map g)[i]? = some (g a)
  | [], i, a => by simp
  | x :: l, 0, a => by
    intro h
    simp at h
    simp [h]
  | x :: l, i + 1, a => by
    intro h
    rw [List.getElem?_cons_succ] at h
    rw [List.map_cons, List.getElem?_cons_succ]
    exact map_getElem?_some g l i a h

theorem apply_body_fixed_eq (cfg : SimConfig) (rb : RigidBody2D) (f : Vec2) :
    (Simulator.apply_body cfg rb f).fixed = rb.fixed ∧
    (Simulator.apply_body cfg rb f).position = rb.position := ⟨rfl, rfl⟩

theorem update_body_of_fixed (sqrtFn : ℚ → ℚ) (cfg : SimConfig) (rb : RigidBody2D)
    (h : rb.fixed = true) :
    Simulator.update_body sqrtFn cfg rb = { rb with velocity := 0 } := by
  unfold Simulator.update_body
  rw [if_pos h]

/-- C8: once a body's fixed flag is set, any tick that returns leaves
its position unchanged, its velocity zero at the end of the tick, and
the flag still set (`apply_node_force` may bump the velocity of a fixed
body, but `update_node_position` zeroes it again and never moves or
unfixes a fixed body). -/
theorem C8_freeze_monotone (sqrtFn : ℚ → ℚ) (cfg : SimConfig) (s s' : SimState)
    (hstep : Simulator.simulation_step sqrtFn cfg s = .ok s') (i : ℕ) (rb : RigidBody2D)
    (hrb : s.rigid_bodies[i]? = some rb) (hfix : rb.fixed = true) :
    ∃ rb', s'.rigid_bodies[i]? = some rb' ∧ rb'.position = rb.position ∧
      rb'.velocity = 0 ∧ rb'.fixed = true := by
  unfold Simulator.simulation_step at hstep
  rcases hcf : Simulator.calculate_forces sqrtFn cfg s with e | fv
  · rw [hcf] at hstep
    exact absurd hstep (by simp)
  · rw [hcf] at hstep
    injection hstep with hs'
    have hlen : fv.length = s.rigid_bodies.length := calculate_forces_length sqrtFn cfg s fv hcf
    have hi : i < fv.length := by
      rw [hlen]
      exact getElem?_some_lt s.rigid_bodies i rb hrb
    obtain ⟨f, hf⟩ := exists_getElem?_some fv i hi
    have happ : (Simulator.apply_node_force cfg fv s.rigid_bodies)[i]? =
        some (Simulator.apply_body cfg rb f) :=
      zipWith_getElem?_some _ s.rigid_bodies fv i rb f hrb hf
    have hupd : (Simulator.update_node_position sqrtFn cfg
        (Simulator.apply_node_force cfg fv s.rigid_bodies))[i]? =
        some (Simulator.update_body sqrtFn cfg (Simulator.apply_body cfg rb f)) :=
      map_getElem?_some _ _ i _ happ
    refine ⟨Simulator.update_body sqrtFn cfg (Simulator.apply_body cfg rb f), ?_, ?_, ?_, ?_⟩
    · rw [← hs']
      exact hupd
    · rw [update_body_of_fixed sqrtFn cfg _ (by exact hfix)]
      rfl
    · rw [update_body_of_fixed sqrtFn cfg _ (by exact hfix)]
    · rw [update_body_of_fixed sqrtFn cfg _ (by exact hfix)]
      exact hfix

/-- C8 witness: one fixed body, default configuration; the step returns
the same state and the theorem applies at index 0. -/
theorem C8_freeze_monotone_witness :
    ∃ rb', ({ rigid_bodies := [⟨⟨3, 4⟩, 0, 1, true⟩], springs := [] } :
        SimState).rigid_bodies[0]? = some rb' ∧
      rb'.position = (⟨⟨3, 4⟩, 0, 1, true⟩ : RigidBody2D).position ∧
      rb'.velocity = 0 ∧ rb'.fixed = true :=
  C8_freeze_monotone (fun x => x) SimulatorBuilder.default
    { rigid_bodies := [⟨⟨3, 4⟩, 0, 1, true⟩], springs := [] }
    { rigid_bodies := [⟨⟨3, 4⟩, 0, 1, true⟩], springs := [] }
    (by with_unfolding_all decide) 0 ⟨⟨3, 4⟩, 0, 1, true⟩ (by simp) rfl

/-!
## Claim C3 — Barnes–Hut bound at θ = 0
-/

namespace QuadTree

mutual

/-- Decidable wellformedness for the domain on which the squared-form
embedding of `s/dist < θ` coincides with the `f32` source: nonnegative
box extents and nonzero masses at every node (any tree freshly built by
`insert` from positive masses satisfies this; an empty tree does not,
which is exactly the claim's "non-empty" proviso). -/
def WfB : QuadTree → Bool
  | .mk a b c d bb m _ =>
    decide (0 ≤ bb.width) && decide (0 ≤ bb.height) && decide (m ≠ 0) &&
      WfBO a && WfBO b && WfBO c && WfBO d

def WfBO : Option QuadTree → Bool
  | some ct => WfB ct
  | none => true

end

end QuadTree

theorem stack_mk (a b c d : Option QuadTree) (bb : BoundingBox2D) (m0 : ℚ) (p0 : Vec2)
    (qp : Vec2) (theta : ℚ) :
    QuadTree.stack (QuadTree.mk a b c d bb m0 p0) qp theta =
      (if (decide ((max bb.width bb.height) ^ 2 < theta ^ 2 * Vec2.distSq (p0 / m0) qp) ||
            (QuadTree.mk a b c d bb m0 p0).is_leaf) &&
          decide (EPSILON ^ 2 < Vec2.distSq (p0 / m0) qp) then
        [QuadTree.mk a b c d bb m0 p0]
      else
        QuadTree.stackO a qp theta ++ QuadTree.stackO b qp theta ++
        QuadTree.stackO c qp theta ++ QuadTree.stackO d qp theta) := rfl

theorem leaves_mk (a b c d : Option QuadTree) (bb : BoundingBox2D) (m0 : ℚ) (p0 : Vec2) :
    QuadTree.leaves (QuadTree.mk a b c d bb m0 p0) =
      (if (QuadTree.mk a b c d bb m0 p0).is_leaf then [QuadTree.mk a b c d bb m0 p0]
      else
        QuadTree.leavesO a ++ QuadTree.leavesO b ++
        QuadTree.leavesO c ++ QuadTree.leavesO d) := rfl

theorem wfB_mk (a b c d : Option QuadTree) (bb : BoundingBox2D) (m0 : ℚ) (p0 : Vec2) :
    QuadTree.WfB (QuadTree.mk a b c d bb m0 p0) =
      (decide (0 ≤ bb.width) && decide (0 ≤ bb.height) && decide (m0 ≠ 0) &&
        QuadTree.WfBO a && QuadTree.WfBO b && QuadTree.WfBO c && QuadTree.WfBO d) := rfl

set_option maxHeartbeats 2000000 in
/-- C3 (amended, for `QuadTree::stack`): on every wellformed tree —
nonzero node masses, i.e. at least one body, and nonnegative extents —
the traversal with θ = 0 emits exactly the leaves whose stored position
is strictly farther than ε from the query point: every such leaf
appears, no internal summary appears, and no leaf within ε appears.
(`QuadTreeVec::stack` does not satisfy this; see the counterexample.) -/
theorem C3_stack_theta_zero_exact_leaves (t : QuadTree) (qp : Vec2) (h : t.WfB = true) :
    t.stack qp 0 = (t.leaves).filter
      (fun l => decide (EPSILON ^ 2 < Vec2.distSq l.centroid qp)) := by
  induction t using QuadTree.inductionOn with
  | _ t ih =>
    rcases t with ⟨a, b, c, d, bb, m0, p0⟩
    rw [wfB_mk] at h
    rw [Bool.and_eq_true, Bool.and_eq_true, Bool.and_eq_true, Bool.and_eq_true,
      Bool.and_eq_true, Bool.and_eq_true] at h
    obtain ⟨⟨⟨⟨⟨⟨hw, hh⟩, hm⟩, ha⟩, hb⟩, hc⟩, hd⟩ := h
    rw [stack_mk, leaves_mk]
    have hbh : decide ((max bb.width bb.height) ^ 2 <
        (0 : ℚ) ^ 2 * Vec2.distSq (p0 / m0) qp) = false := by
      apply decide_eq_false
      intro hcon
      nlinarith [sq_nonneg (max bb.width bb.height)]
    rw [hbh, Bool.false_or]
    by_cases hl : (QuadTree.mk a b c d bb m0 p0).is_leaf = true
    · have hnone : ((a = none ∧ b = none) ∧ c = none) ∧ d = none := by
        rw [QuadTree.is_leaf] at hl
        simpa [Option.isNone_iff_eq_none, Bool.and_eq_true] using hl
      obtain ⟨⟨⟨ea, eb⟩, ec⟩, ed⟩ := hnone
      subst ea; subst eb; subst ec; subst ed
      rw [if_pos hl]
      have hcen : (QuadTree.mk none none none none bb m0 p0).centroid = p0 / m0 := rfl
      by_cases hd2 : EPSILON ^ 2 < Vec2.distSq (p0 / m0) qp
      · rw [hl, Bool.true_and, decide_eq_true hd2, if_pos rfl]
        have hd2c : decide (EPSILON ^ 2 < Vec2.distSq ⟨p0.x / m0, p0.y / m0⟩ qp) = true :=
          decide_eq_true (by simpa [Vec2.div_def] using hd2)
        simp [List.filter, hcen, hd2c]
      · rw [hl, Bool.true_and, decide_eq_false hd2, if_neg (by simp)]
        have hd2c : decide (EPSILON ^ 2 < Vec2.distSq ⟨p0.x / m0, p0.y / m0⟩ qp) = false :=
          decide_eq_false (by simpa [Vec2.div_def] using hd2)
        simp [List.filter, hcen, hd2c, QuadTree.stackO]
    · rw [if_neg (by simp [Bool.eq_false_iff.mpr hl])]
      rw [if_neg (by simp_all)]
      have hA : QuadTree.stackO a qp 0 =
          List.filter (fun l => decide (EPSILON ^ 2 < Vec2.distSq l.centroid qp))
            (QuadTree.leavesO a) := by
        cases a with
        | none => rfl
        | some ct => exact ih 0 ct (by simp [QuadTree.child]) ha
      have hB : QuadTree.stackO b qp 0 =
          List.filter (fun l => decide (EPSILON ^ 2 < Vec2.distSq l.centroid qp))
            (QuadTree.leavesO b) := by
        cases b with
        | none => rfl
        | some ct => exact ih 1 ct (by simp [QuadTree.child]) hb
      have hC : QuadTree.stackO c qp 0 =
          List.filter (fun l => decide (EPSILON ^ 2 < Vec2.distSq l.centroid qp))
            (QuadTree.leavesO c) := by
        cases c with
        | none => rfl
        | some ct => exact ih 2 ct (by simp [QuadTree.child]) hc
      have hD : QuadTree.stackO d qp 0 =
          List.filter (fun l => decide (EPSILON ^ 2 < Vec2.distSq l.centroid qp))
            (QuadTree.leavesO d) := by
        cases d with
        | none => rfl
        | some ct => exact ih 3 ct (by simp [QuadTree.child]) hd
      rw [hA, hB, hC, hD, List.filter_append, List.filter_append, List.filter_append]

/-- The two-leaf tree of `c1Tree`, extracted. -/
def c3T : QuadTree := c1Tree.toOption.getD (QuadTree.new bbTen)

/-- C3 witness: the concrete two-leaf tree is wellformed, and at θ = 0
the stack from (9, 9) is exactly the ε-far leaf filter. -/
theorem C3_stack_theta_zero_witness :
    c3T.WfB = true ∧
    c3T.stack ⟨9, 9⟩ 0 = (c3T.leaves).filter
      (fun l => decide (EPSILON ^ 2 < Vec2.distSq l.centroid ⟨9, 9⟩)) :=
  ⟨by with_unfolding_all decide,
    C3_stack_theta_zero_exact_leaves c3T ⟨9, 9⟩ (by with_unfolding_all decide)⟩

/-- The two-leaf arena tree of `c1Tv`, extracted. -/
def c3Tv : qtv.QuadTreeVec := c1Tv.getD (qtv.QuadTreeVec.new bbTen)

/-- C3 counterexample: `QuadTreeVec::stack` performs no ε
self-exclusion — querying from a stored position (1, 1) at θ = 0 emits
the leaf at that very position (distance 0 < ε), so the claim's "no
leaf within ε of q appears" fails for the `qtv.rs` implementation the
claim also cites. -/
theorem C3_counterexample_qtv_self_inclusion :
    (c3Tv.stack ⟨1, 1⟩ 0).contains (qtv.Node.leaf 30 ⟨1, 1⟩) = true ∧
    Vec2.distSq ⟨1, 1⟩ ⟨1, 1⟩ < EPSILON ^ 2 := by
  with_unfolding_all decide

/-!
## Claim C2 — a tick never fails

`calculate_forces` divides `node_count / thread_count` where
`thread_count = min(node_count, max_threads)`: with an empty body store
this is `0 / 0`, an unguarded integer division that panics in Rust — the
counterexample below.  The amended theorem shows the step succeeds on
every store with at least one body, positive masses, in-range spring
endpoints and a builder-validated `max_threads ≥ 1`; its core is a
termination bound for the subdivision chain of `QuadTree::insert`.
-/

/-- `4^k` dominates `k + 1` over ℚ. -/
theorem pow4_ge (k : ℕ) : (k : ℚ) + 1 ≤ 4 ^ k := by
  induction k with
  | zero => norm_num
  | succ k ih =>
    have h4 : (1 : ℚ) ≤ 4 ^ k := one_le_pow₀ (by norm_num)
    push_cast
    calc ((k : ℚ) + 1) + 1 ≤ 4 ^ k + 4 ^ k := by linarith
    _ ≤ 4 * 4 ^ k := by linarith
    _ = 4 ^ (k + 1) := by ring

/-- Batteries' `Rat.ceil` is an upper bound (the floor-ring `⌈⌉` is not
definitionally the executable `Rat.ceil`, so the bound is re-derived). -/
theorem rat_le_ceil (q : ℚ) : q ≤ (q.ceil : ℚ) := by
  rw [Rat.ceil]
  split
  · next h =>
    have hq : (q.num : ℚ) = q := by
      have h2 := Rat.num_div_den q
      rwa [h, Nat.cast_one, div_one] at h2
    rw [hq]
  · next h =>
    have hf : q.num / (q.den : ℤ) = ⌊q⌋ := Rat.floor_def.symm
    rw [hf]
    push_cast
    have h2 := Int.lt_floor_add_one q
    linarith

/-- The fuel `chainFuel bb` makes `4^fuel · ε²` exceed the squared
diagonal of the box. -/
theorem chainFuel_bound (bb : BoundingBox2D) :
    bb.width ^ 2 + bb.height ^ 2 < 4 ^ chainFuel bb * EPSILON ^ 2 := by
  set S : ℚ := bb.width ^ 2 + bb.height ^ 2 with hS
  have hε : (0 : ℚ) < EPSILON ^ 2 := by norm_num [EPSILON]
  set r : ℚ := S / EPSILON ^ 2 with hr
  set k : ℕ := r.ceil.toNat with hk
  have h1 : r ≤ (r.ceil : ℚ) := rat_le_ceil r
  have h2 : (r.ceil : ℚ) ≤ (k : ℚ) := by
    rw [hk]
    exact_mod_cast Int.self_le_toNat r.ceil
  have h3 : (k : ℚ) + 1 ≤ 4 ^ k := pow4_ge k
  have h4 : (4 : ℚ) ^ k ≤ 4 ^ (k + 1) := by
    have h5 : (1 : ℚ) ≤ 4 ^ k := one_le_pow₀ (by norm_num)
    have h6 : (4 : ℚ) ^ (k + 1) = 4 * 4 ^ k := by ring
    linarith
  have hSr : S = r * EPSILON ^ 2 := by
    rw [hr, div_mul_cancel₀ _ (ne_of_gt hε)]
  have hfu : chainFuel bb = k + 1 := rfl
  rw [hfu, hSr]
  have : r < 4 ^ (k + 1) := by linarith
  nlinarith

/-- Two points of a closed box are at most the squared diagonal apart. -/
theorem distSq_le_diag {p r : Vec2} {bb : BoundingBox2D}
    (hp : BoundingBox2D.inClosedBox p bb) (hr : BoundingBox2D.inClosedBox r bb) :
    Vec2.distSq p r ≤ bb.width ^ 2 + bb.height ^ 2 := by
  obtain ⟨hp1, hp2, hp3, hp4⟩ := hp
  obtain ⟨hr1, hr2, hr3, hr4⟩ := hr
  unfold Vec2.distSq Vec2.lengthSq
  simp only [Vec2.sub_def]
  nlinarith [sq_nonneg (p.x - r.x), sq_nonneg (p.y - r.y)]

/-- A positively-weighted average of two values of an interval stays in
the interval (used for the ε-merge of two leaf centroids). -/
theorem convex_avg_mem {lo hi x y wa wb : ℚ} (ha : 0 < wa) (hb : 0 < wb)
    (hx1 : lo ≤ x) (hx2 : x ≤ hi) (hy1 : lo ≤ y) (hy2 : y ≤ hi) :
    lo ≤ (x * wa + y * wb) / (wa + wb) ∧ (x * wa + y * wb) / (wa + wb) ≤ hi := by
  have hw : 0 < wa + wb := by linarith
  constructor
  · rw [le_div_iff₀ hw]; nlinarith
  · rw [div_le_iff₀ hw]; nlinarith

namespace QuadTree

mutual

/-- The structural invariant `QuadTree::insert` maintains on every tree
it has built from bodies inside the boundary: positive node mass,
nonnegative box extents, a leaf's centroid inside its own closed box,
and each occupied child slot holding the matching sub-quadrant. -/
def Inv : QuadTree → Prop
  | .mk a b c d bb m0 p0 =>
    0 < m0 ∧ 0 ≤ bb.width ∧ 0 ≤ bb.height ∧
    ((QuadTree.mk a b c d bb m0 p0).is_leaf = true →
      BoundingBox2D.inClosedBox (p0 / m0) bb) ∧
    InvO a (bb.sub_quadrant 0) ∧ InvO b (bb.sub_quadrant 1) ∧
    InvO c (bb.sub_quadrant 2) ∧ InvO d (bb.sub_quadrant 3)

/-- Invariant of an optional child slot: an occupied slot carries the
designated sub-quadrant boundary and is itself invariant. -/
def InvO : Option QuadTree → BoundingBox2D → Prop
  | some ct, sub => ct.boundary = sub ∧ Inv ct
  | none, _ => True

end

theorem Inv_mk (a b c d : Option QuadTree) (bb : BoundingBox2D) (m0 : ℚ) (p0 : Vec2) :
    Inv (QuadTree.mk a b c d bb m0 p0) =
      (0 < m0 ∧ 0 ≤ bb.width ∧ 0 ≤ bb.height ∧
       ((QuadTree.mk a b c d bb m0 p0).is_leaf = true →
         BoundingBox2D.inClosedBox (p0 / m0) bb) ∧
       InvO a (bb.sub_quadrant 0) ∧ InvO b (bb.sub_quadrant 1) ∧
       InvO c (bb.sub_quadrant 2) ∧ InvO d (bb.sub_quadrant 3)) := rfl

theorem InvO_some (ct : QuadTree) (sub : BoundingBox2D) :
    InvO (some ct) sub = (ct.boundary = sub ∧ Inv ct) := rfl

theorem InvO_none (sub : BoundingBox2D) : InvO none sub = True := rfl

end QuadTree

theorem BoundingBox2D.sub_quadrant_width (bb : BoundingBox2D) (s : ℕ) :
    (bb.sub_quadrant s).width = bb.width * (1/2) := rfl

theorem BoundingBox2D.sub_quadrant_height (bb : BoundingBox2D) (s : ℕ) :
    (bb.sub_quadrant s).height = bb.height * (1/2) := rfl

/-- Componentwise `(p·m)/m = p` for nonzero scalar `m`. -/
theorem Vec2.mul_div_cancel_self (p : Vec2) {m : ℚ} (hm : m ≠ 0) : (p * m) / m = p := by
  simp only [Vec2.mul_def, Vec2.div_def]
  exact Vec2.ext_iff.mpr ⟨mul_div_cancel_right₀ _ hm, mul_div_cancel_right₀ _ hm⟩

namespace QuadTree

/-- `setChild` never touches the boundary. -/
theorem setChild_boundary (t : QuadTree) (q : ℕ) (c : QuadTree) :
    (t.setChild q c).boundary = t.boundary := by
  rcases t with ⟨a, b, c', d, bb, m, p⟩
  rcases q with - | - | - | - | n <;> rfl

/-- A fresh leaf with stored weighted position `w`, mass `m` and a
centroid `w / m` inside its box is invariant. -/
theorem Inv_leaf_weighted {w : Vec2} {m : ℚ} {bb : BoundingBox2D} (hm : 0 < m)
    (hww : 0 ≤ bb.width) (hhh : 0 ≤ bb.height)
    (hp : BoundingBox2D.inClosedBox (w / m) bb) :
    Inv (new_leaf w m bb) := by
  rw [new_leaf, Inv_mk]
  exact ⟨hm, hww, hhh, fun _ => hp, trivial, trivial, trivial, trivial⟩

/-- The subdivision chain of `QuadTree::insert` terminates inside its
fuel bound and yields an invariant tree: at each level both the new body
and the old leaf centroid stay in the closed sub-box, whose squared
diagonal quarters, while their squared distance stays `≥ ε²` — so the
quadrants must separate before the diagonal drops below `ε`. -/
theorem chainInto_ok : ∀ (fuel : ℕ) (nd : QuadTree) (p : Vec2) (m : ℚ) (lposW : Vec2)
    (lm : ℚ), nd.is_leaf = true → 0 < nd.mass → 0 < m → 0 < lm →
    0 ≤ nd.boundary.width → 0 ≤ nd.boundary.height →
    BoundingBox2D.inClosedBox p nd.boundary →
    BoundingBox2D.inClosedBox (lposW / lm) nd.boundary →
    EPSILON ^ 2 ≤ Vec2.distSq p (lposW / lm) →
    nd.boundary.width ^ 2 + nd.boundary.height ^ 2 < 4 ^ fuel * EPSILON ^ 2 →
    ∃ t', chainInto fuel nd p m lposW lm (lposW / lm) = some t' ∧
      Inv t' ∧ t'.boundary = nd.boundary := by
  intro fuel
  induction fuel with
  | zero =>
    intro nd p m lposW lm hleaf hmnd hm hlm hw hh hp hl hdist hfuel
    exfalso
    have hdiag := distSq_le_diag hp hl
    have h40 : (4 : ℚ) ^ 0 * EPSILON ^ 2 = EPSILON ^ 2 := by norm_num
    rw [h40] at hfuel
    linarith
  | succ fuel ih =>
    intro nd p m lposW lm hleaf hmnd hm hlm hw hh hp hl hdist hfuel
    rcases nd with ⟨a, b, c, d, bb, mnd, pnd⟩
    have hnone : ((a = none ∧ b = none) ∧ c = none) ∧ d = none := by
      rw [is_leaf] at hleaf
      simpa [Option.isNone_iff_eq_none, Bool.and_eq_true] using hleaf
    obtain ⟨⟨⟨ea, eb⟩, ec⟩, ed⟩ := hnone
    subst ea; subst eb; subst ec; subst ed
    simp only [QuadTree.boundary, QuadTree.mass] at hmnd hw hh hp hl hfuel
    have hq3 : bb.«section» p ≤ 3 := BoundingBox2D.section_le_three bb p
    have hlq3 : bb.«section» (lposW / lm) ≤ 3 := BoundingBox2D.section_le_three bb _
    by_cases hql : bb.«section» p = bb.«section» (lposW / lm)
    · -- same quadrant: push the old leaf one level down and recurse
      have hp' : BoundingBox2D.inClosedBox p
          (bb.sub_quadrant (bb.«section» (lposW / lm))) := by
        rw [← hql]
        exact BoundingBox2D.inClosedBox_sub_quadrant_section hp
      have hl' : BoundingBox2D.inClosedBox (lposW / lm)
          (bb.sub_quadrant (bb.«section» (lposW / lm))) :=
        BoundingBox2D.inClosedBox_sub_quadrant_section hl
      have hf' : (bb.sub_quadrant (bb.«section» (lposW / lm))).width ^ 2 +
          (bb.sub_quadrant (bb.«section» (lposW / lm))).height ^ 2 <
          4 ^ fuel * EPSILON ^ 2 := by
        rw [BoundingBox2D.sub_quadrant_width, BoundingBox2D.sub_quadrant_height]
        have h41 : (4 : ℚ) ^ (fuel + 1) * EPSILON ^ 2 = 4 * (4 ^ fuel * EPSILON ^ 2) := by
          ring
        rw [h41] at hfuel
        nlinarith
      obtain ⟨c0, hc0, hInvC, hbndC⟩ :=
        ih (new_leaf lposW lm (bb.sub_quadrant (bb.«section» (lposW / lm)))) p m lposW lm
          rfl hlm hm hlm
          (by show 0 ≤ (bb.sub_quadrant (bb.«section» (lposW / lm))).width
              rw [BoundingBox2D.sub_quadrant_width]; linarith)
          (by show 0 ≤ (bb.sub_quadrant (bb.«section» (lposW / lm))).height
              rw [BoundingBox2D.sub_quadrant_height]; linarith)
          hp' hl' hdist hf'
      refine ⟨(QuadTree.mk none none none none bb mnd pnd).setChild
        (bb.«section» (lposW / lm)) c0, ?_, ?_, ?_⟩
      · rw [chainInto]
        dsimp only [QuadTree.boundary]
        rw [if_pos hql, hc0]
        rfl
      · rcases hE : bb.«section» (lposW / lm) with - | - | - | - | n <;>
          first
          | (rw [hE] at hlq3; omega)
          | (rw [hE] at hbndC
             simp only [setChild, Inv_mk]
             refine ⟨hmnd, hw, hh, fun habs => by simp [is_leaf] at habs, ?_, ?_, ?_, ?_⟩ <;>
               first
               | exact ⟨hbndC, hInvC⟩
               | trivial)
      · exact setChild_boundary _ _ _
    · -- quadrants differ: install the old leaf and the new one
      have hInvL : Inv (new_leaf lposW lm
          (bb.sub_quadrant (bb.«section» (lposW / lm)))) :=
        Inv_leaf_weighted hlm
          (by rw [BoundingBox2D.sub_quadrant_width]; linarith)
          (by rw [BoundingBox2D.sub_quadrant_height]; linarith)
          (BoundingBox2D.inClosedBox_sub_quadrant_section hl)
      have hInvP : Inv (new_leaf (p * m) m (bb.sub_quadrant (bb.«section» p))) :=
        Inv_leaf_weighted hm
          (by rw [BoundingBox2D.sub_quadrant_width]; linarith)
          (by rw [BoundingBox2D.sub_quadrant_height]; linarith)
          (by rw [Vec2.mul_div_cancel_self p (ne_of_gt hm)]
              exact BoundingBox2D.inClosedBox_sub_quadrant_section hp)
      refine ⟨((QuadTree.mk none none none none bb mnd pnd).setChild
          (bb.«section» (lposW / lm))
          (new_leaf lposW lm (bb.sub_quadrant (bb.«section» (lposW / lm))))).setChild
          (bb.«section» p) (new_leaf (p * m) m (bb.sub_quadrant (bb.«section» p))),
          ?_, ?_, ?_⟩
      · rw [chainInto]
        dsimp only [QuadTree.boundary]
        rw [if_neg hql]
      · rcases hqE : bb.«section» p with - | - | - | - | n <;>
          rcases hlE : bb.«section» (lposW / lm) with - | - | - | - | k <;>
          first
          | (rw [hqE, hlE] at hql; exact absurd rfl hql)
          | (rw [hqE] at hq3; omega)
          | (rw [hlE] at hlq3; omega)
          | (rw [hqE] at hInvP
             rw [hlE] at hInvL
             simp only [setChild, Inv_mk]
             refine ⟨hmnd, hw, hh, fun habs => by simp [is_leaf] at habs, ?_, ?_, ?_, ?_⟩ <;>
               first
               | exact ⟨rfl, hInvL⟩
               | exact ⟨rfl, hInvP⟩
               | trivial)
      · exact (setChild_boundary _ _ _).trans (setChild_boundary _ _ _)

end QuadTree

namespace QuadTree

set_option maxHeartbeats 3200000 in
/-- `insertGo` (the walk of `QuadTree::insert` below its guards) always
succeeds on an invariant tree when the body lands inside the boundary,
and the result is again invariant on the same boundary. -/
theorem insertGo_ok : ∀ (t : QuadTree) (p : Vec2) (m : ℚ), Inv t → 0 < m →
    BoundingBox2D.inClosedBox p t.boundary →
    ∃ t', insertGo t p m = some t' ∧ Inv t' ∧ t'.boundary = t.boundary := by
  intro t
  induction t using inductionOn with
  | _ t ih =>
    intro p m hInv hm hp
    rcases t with ⟨a, b, c, d, bb, m0, p0⟩
    rw [Inv_mk] at hInv
    obtain ⟨hm0, hw, hh, hleafC, hIa, hIb, hIc, hId⟩ := hInv
    simp only [QuadTree.boundary] at hp ⊢
    have hq3 : bb.«section» p ≤ 3 := BoundingBox2D.section_le_three bb p
    rw [insertGo.eq_def]
    dsimp only
    by_cases hl : (QuadTree.mk a b c d bb m0 p0).is_leaf = true
    · -- leaf: ε-merge or the subdivision chain
      rw [if_pos hl]
      have hnone : ((a = none ∧ b = none) ∧ c = none) ∧ d = none := by
        rw [is_leaf] at hl
        simpa [Option.isNone_iff_eq_none, Bool.and_eq_true] using hl
      obtain ⟨⟨⟨ea, eb⟩, ec⟩, ed⟩ := hnone
      subst ea; subst eb; subst ec; subst ed
      have hcen := hleafC hl
      by_cases hmerge : Vec2.distSq p (p0 / m0) < EPSILON ^ 2
      · -- merge into the existing leaf
        obtain ⟨hc1, hc2, hc3, hc4⟩ := hcen
        obtain ⟨hp1, hp2, hp3, hp4⟩ := hp
        simp only [Vec2.div_def] at hc1 hc2 hc3 hc4
        have hex : p0.x / m0 * m0 = p0.x := div_mul_cancel₀ _ (ne_of_gt hm0)
        have hey : p0.y / m0 * m0 = p0.y := div_mul_cancel₀ _ (ne_of_gt hm0)
        have hx := convex_avg_mem hm0 hm hc1 hc2 hp1 hp2
        have hy := convex_avg_mem hm0 hm hc3 hc4 hp3 hp4
        rw [hex] at hx
        rw [hey] at hy
        refine ⟨QuadTree.mk none none none none bb (m0 + m) (p0 + p * m), ?_, ?_, rfl⟩
        · rw [insertLeafStop]
          dsimp only [QuadTree.position, QuadTree.mass, QuadTree.boundary, update_mass]
          rw [if_pos hmerge]
        · rw [Inv_mk]
          refine ⟨by linarith, hw, hh, fun _ => ?_, trivial, trivial, trivial, trivial⟩
          exact ⟨hx.1, hx.2, hy.1, hy.2⟩
      · -- run the subdivision chain
        obtain ⟨t', hct, hInvT, hbndT⟩ :=
          chainInto_ok (chainFuel bb) (QuadTree.mk none none none none bb (m0 + m)
            (p0 + p * m)) p m p0 m0 rfl (by dsimp only [QuadTree.mass]; linarith)
            hm hm0 hw hh hp hcen (not_lt.mp hmerge) (chainFuel_bound bb)
        refine ⟨t', ?_, hInvT, hbndT⟩
        rw [insertLeafStop]
        dsimp only [QuadTree.position, QuadTree.mass, QuadTree.boundary, update_mass]
        rw [if_neg hmerge]
        exact hct
    · -- internal node: walk down or install
      rw [if_neg hl]
      have hqor : bb.«section» p = 0 ∨ bb.«section» p = 1 ∨ bb.«section» p = 2 ∨
          bb.«section» p = 3 := by omega
      have hpin0 : BoundingBox2D.inClosedBox p (bb.sub_quadrant (bb.«section» p)) :=
        BoundingBox2D.inClosedBox_sub_quadrant_section hp
      rcases hqor with hqE | hqE | hqE | hqE
      · -- section 0
        rw [hqE] at hpin0 ⊢
        cases a with
        | some ca =>
          rw [InvO_some] at hIa
          obtain ⟨hbca, hInvA⟩ := hIa
          obtain ⟨c', hc', hInvC', hbndC'⟩ :=
            ih 0 ca rfl p m hInvA hm (by rw [hbca]; exact hpin0)
          refine ⟨QuadTree.mk (some c') b c d bb (m0 + m) (p0 + p * m), ?_, ?_, rfl⟩
          · dsimp only
            rw [hc']
            rfl
          · rw [Inv_mk]
            refine ⟨by linarith, hw, hh, fun habs => by simp [is_leaf] at habs,
              ?_, hIb, hIc, hId⟩
            exact ⟨hbndC'.trans hbca, hInvC'⟩
        | none =>
          refine ⟨QuadTree.mk (some (new_leaf (p * m) m (bb.sub_quadrant 0))) b c d bb
            m0 p0, ?_, ?_, rfl⟩
          · rfl
          · rw [Inv_mk]
            refine ⟨hm0, hw, hh, fun habs => by simp [is_leaf] at habs, ?_, hIb, hIc, hId⟩
            refine ⟨rfl, Inv_leaf_weighted hm ?_ ?_ ?_⟩
            · rw [BoundingBox2D.sub_quadrant_width]; linarith
            · rw [BoundingBox2D.sub_quadrant_height]; linarith
            · rw [Vec2.mul_div_cancel_self p (ne_of_gt hm)]
              exact hpin0
      · -- section 1
        rw [hqE] at hpin0 ⊢
        cases b with
        | some cb =>
          rw [InvO_some] at hIb
          obtain ⟨hbcb, hInvB⟩ := hIb
          obtain ⟨c', hc', hInvC', hbndC'⟩ :=
            ih 1 cb rfl p m hInvB hm (by rw [hbcb]; exact hpin0)
          refine ⟨QuadTree.mk a (some c') c d bb (m0 + m) (p0 + p * m), ?_, ?_, rfl⟩
          · dsimp only
            rw [hc']
            rfl
          · rw [Inv_mk]
            refine ⟨by linarith, hw, hh, fun habs => by simp [is_leaf] at habs,
              hIa, ?_, hIc, hId⟩
            exact ⟨hbndC'.trans hbcb, hInvC'⟩
        | none =>
          refine ⟨QuadTree.mk a (some (new_leaf (p * m) m (bb.sub_quadrant 1))) c d bb
            m0 p0, ?_, ?_, rfl⟩
          · rfl
          · rw [Inv_mk]
            refine ⟨hm0, hw, hh, fun habs => by simp [is_leaf] at habs, hIa, ?_, hIc, hId⟩
            refine ⟨rfl, Inv_leaf_weighted hm ?_ ?_ ?_⟩
            · rw [BoundingBox2D.sub_quadrant_width]; linarith
            · rw [BoundingBox2D.sub_quadrant_height]; linarith
            · rw [Vec2.mul_div_cancel_self p (ne_of_gt hm)]
              exact hpin0
      · -- section 2
        rw [hqE] at hpin0 ⊢
        cases c with
        | some cc =>
          rw [InvO_some] at hIc
          obtain ⟨hbcc, hInvCn⟩ := hIc
          obtain ⟨c', hc', hInvC', hbndC'⟩ :=
            ih 2 cc rfl p m hInvCn hm (by rw [hbcc]; exact hpin0)
          refine ⟨QuadTree.mk a b (some c') d bb (m0 + m) (p0 + p * m), ?_, ?_, rfl⟩
          · dsimp only
            rw [hc']
            rfl
          · rw [Inv_mk]
            refine ⟨by linarith, hw, hh, fun habs => by simp [is_leaf] at habs,
              hIa, hIb, ?_, hId⟩
            exact ⟨hbndC'.trans hbcc, hInvC'⟩
        | none =>
          refine ⟨QuadTree.mk a b (some (new_leaf (p * m) m (bb.sub_quadrant 2))) d bb
            m0 p0, ?_, ?_, rfl⟩
          · rfl
          · rw [Inv_mk]
            refine ⟨hm0, hw, hh, fun habs => by simp [is_leaf] at habs, hIa, hIb, ?_, hId⟩
            refine ⟨rfl, Inv_leaf_weighted hm ?_ ?_ ?_⟩
            · rw [BoundingBox2D.sub_quadrant_width]; linarith
            · rw [BoundingBox2D.sub_quadrant_height]; linarith
            · rw [Vec2.mul_div_cancel_self p (ne_of_gt hm)]
              exact hpin0
      · -- section 3
        rw [hqE] at hpin0 ⊢
        cases d with
        | some cd =>
          rw [InvO_some] at hId
          obtain ⟨hbcd, hInvD⟩ := hId
          obtain ⟨c', hc', hInvC', hbndC'⟩ :=
            ih 3 cd rfl p m hInvD hm (by rw [hbcd]; exact hpin0)
          refine ⟨QuadTree.mk a b c (some c') bb (m0 + m) (p0 + p * m), ?_, ?_, rfl⟩
          · dsimp only
            rw [hc']
            rfl
          · rw [Inv_mk]
            refine ⟨by linarith, hw, hh, fun habs => by simp [is_leaf] at habs,
              hIa, hIb, hIc, ?_⟩
            exact ⟨hbndC'.trans hbcd, hInvC'⟩
        | none =>
          refine ⟨QuadTree.mk a b c (some (new_leaf (p * m) m (bb.sub_quadrant 3))) bb
            m0 p0, ?_, ?_, rfl⟩
          · rfl
          · rw [Inv_mk]
            refine ⟨hm0, hw, hh, fun habs => by simp [is_leaf] at habs, hIa, hIb, hIc, ?_⟩
            refine ⟨rfl, Inv_leaf_weighted hm ?_ ?_ ?_⟩
            · rw [BoundingBox2D.sub_quadrant_width]; linarith
            · rw [BoundingBox2D.sub_quadrant_height]; linarith
            · rw [Vec2.mul_div_cancel_self p (ne_of_gt hm)]
              exact hpin0

end QuadTree

namespace QuadTree

/-- `QuadTree::insert` on an invariant (hence non-empty) tree with a
positive mass inside the boundary returns a tree, never a panic. -/
theorem insert_ok (t : QuadTree) (p : Vec2) (m : ℚ) (hInv : Inv t) (hm : 0 < m)
    (hp : BoundingBox2D.inClosedBox p t.boundary) :
    ∃ t', insert t p m = .ok t' ∧ Inv t' ∧ t'.boundary = t.boundary := by
  obtain ⟨t', hgo, hInv', hbnd⟩ := insertGo_ok t p m hInv hm hp
  have hmass : ¬ (t.mass = 0) := by
    rcases t with ⟨a, b, c, d, bb, m0, p0⟩
    rw [Inv_mk] at hInv
    exact ne_of_gt hInv.1
  refine ⟨t', ?_, hInv', hbnd⟩
  rw [insert.eq_def, if_neg (ne_of_gt hm), if_neg hmass, hgo]

/-- Folding `insert` over bodies with positive masses and in-box
positions preserves success. -/
theorem insert_foldlM_ok : ∀ (l : List RigidBody2D) (t : QuadTree), Inv t →
    (∀ rb ∈ l, 0 < rb.mass ∧ BoundingBox2D.inClosedBox rb.position t.boundary) →
    ∃ t', l.foldlM (fun t rb => QuadTree.insert t rb.position rb.mass) t = .ok t' := by
  intro l
  induction l with
  | nil => intro t _ _; exact ⟨t, rfl⟩
  | cons rb l ihl =>
    intro t hInv hall
    obtain ⟨hmrb, hprb⟩ := hall rb (List.mem_cons_self rb l)
    obtain ⟨t1, hins, hInv1, hbnd1⟩ := insert_ok t rb.position rb.mass hInv hmrb hprb
    obtain ⟨t', hfold⟩ := ihl t1 hInv1 (fun x hx => by
      obtain ⟨h1, h2⟩ := hall x (List.mem_cons_of_mem rb hx)
      exact ⟨h1, by rw [hbnd1]; exact h2⟩)
    refine ⟨t', ?_⟩
    rw [List.foldlM_cons, hins]
    exact hfold

end QuadTree

/-- The running `vmin` fold is a componentwise lower bound of its seed
and of every list element. -/
theorem foldl_vmin_le (l : List Vec2) (init : Vec2) :
    ((l.foldl Vec2.vmin init).x ≤ init.x ∧ (l.foldl Vec2.vmin init).y ≤ init.y) ∧
    ∀ p ∈ l, (l.foldl Vec2.vmin init).x ≤ p.x ∧ (l.foldl Vec2.vmin init).y ≤ p.y := by
  induction l generalizing init with
  | nil => exact ⟨⟨le_refl _, le_refl _⟩, by simp⟩
  | cons a l ihl =>
    have h := ihl (Vec2.vmin init a)
    rw [List.foldl_cons]
    refine ⟨⟨h.1.1.trans (min_le_left _ _), h.1.2.trans (min_le_left _ _)⟩, ?_⟩
    intro p hp
    rcases List.mem_cons.mp hp with he | hmem
    · subst he
      exact ⟨h.1.1.trans (min_le_right _ _), h.1.2.trans (min_le_right _ _)⟩
    · exact h.2 p hmem

/-- The running `vmax` fold is a componentwise upper bound of its seed
and of every list element. -/
theorem foldl_vmax_ge (l : List Vec2) (init : Vec2) :
    (init.x ≤ (l.foldl Vec2.vmax init).x ∧ init.y ≤ (l.foldl Vec2.vmax init).y) ∧
    ∀ p ∈ l, p.x ≤ (l.foldl Vec2.vmax init).x ∧ p.y ≤ (l.foldl Vec2.vmax init).y := by
  induction l generalizing init with
  | nil => exact ⟨⟨le_refl _, le_refl _⟩, by simp⟩
  | cons a l ihl =>
    have h := ihl (Vec2.vmax init a)
    rw [List.foldl_cons]
    refine ⟨⟨(le_max_left _ _).trans h.1.1, (le_max_left _ _).trans h.1.2⟩, ?_⟩
    intro p hp
    rcases List.mem_cons.mp hp with he | hmem
    · subst he
      exact ⟨(le_max_right _ _).trans h.1.1, (le_max_right _ _).trans h.1.2⟩
    · exact h.2 p hmem

/-- Folding the inserts from the empty tree: the first body takes the
zero-mass shortcut, the rest go through `insert_foldlM_ok`. -/
theorem fold_from_empty_ok (l : List RigidBody2D) (bb : BoundingBox2D)
    (hw : 0 ≤ bb.width) (hh : 0 ≤ bb.height)
    (hall : ∀ rb ∈ l, 0 < rb.mass ∧ BoundingBox2D.inClosedBox rb.position bb)
    (hne : l ≠ []) :
    ∃ t', l.foldlM (fun t rb => QuadTree.insert t rb.position rb.mass)
      (QuadTree.new bb) = .ok t' := by
  rcases l with - | ⟨b0, rest⟩
  · exact absurd rfl hne
  obtain ⟨hm0, hp0⟩ := hall b0 (List.mem_cons_self _ _)
  have hfirst : QuadTree.insert (QuadTree.new bb) b0.position b0.mass =
      .ok (QuadTree.mk none none none none bb b0.mass (b0.position * b0.mass)) := by
    rw [QuadTree.insert.eq_def, if_neg (ne_of_gt hm0),
      if_pos (show (QuadTree.new bb).mass = 0 from rfl)]
    rfl
  have hInv0 : QuadTree.Inv (QuadTree.mk none none none none bb b0.mass
      (b0.position * b0.mass)) := by
    rw [QuadTree.Inv_mk]
    refine ⟨hm0, hw, hh, fun _ => ?_, trivial, trivial, trivial, trivial⟩
    rw [Vec2.mul_div_cancel_self _ (ne_of_gt hm0)]
    exact hp0
  obtain ⟨t', hfold⟩ := QuadTree.insert_foldlM_ok rest
    (QuadTree.mk none none none none bb b0.mass (b0.position * b0.mass)) hInv0
    (fun x hx => hall x (List.mem_cons_of_mem _ hx))
  refine ⟨t', ?_⟩
  rw [List.foldlM_cons, hfirst]
  exact hfold

/-- `build_quadtree` succeeds on every non-empty store of
positive-mass bodies: the min/max folds put every position inside the
computed boundary. -/
theorem Simulator.build_quadtree_ok (bodies : List RigidBody2D) (hne : bodies ≠ [])
    (hm : ∀ rb ∈ bodies, 0 < rb.mass) :
    ∃ t, Simulator.build_quadtree bodies = .ok t := by
  obtain ⟨hmin1, hmin2⟩ := foldl_vmin_le (bodies.map RigidBody2D.position)
    ((bodies.map RigidBody2D.position).headD 0)
  obtain ⟨hmax1, hmax2⟩ := foldl_vmax_ge (bodies.map RigidBody2D.position)
    ((bodies.map RigidBody2D.position).headD 0)
  rw [Simulator.build_quadtree]
  apply fold_from_empty_ok bodies _ ?_ ?_ ?_ hne
  · simp only [Vec2.sub_def]
    linarith [hmin1.1, hmax1.1]
  · simp only [Vec2.sub_def]
    linarith [hmin1.2, hmax1.2]
  · intro rb hrb
    refine ⟨hm rb hrb, ?_⟩
    have hlo := hmin2 rb.position (List.mem_map_of_mem _ hrb)
    have hhi := hmax2 rb.position (List.mem_map_of_mem _ hrb)
    refine ⟨?_, ?_, ?_, ?_⟩ <;>
      · simp only [Vec2.sub_def, Vec2.add_def, Vec2.div_def]
        ring_nf
        first
        | linarith [hlo.1, hhi.1]
        | linarith [hlo.2, hhi.2]

/-- The spring pass succeeds whenever every spring's endpoints index
into the store. -/
theorem Simulator.spring_fold_ok (sqrtFn : ℚ → ℚ) (cfg : SimConfig) (s : SimState) :
    ∀ (l : List Spring) (fv : List Vec2),
    (∀ sp ∈ l, sp.rb1 < s.rigid_bodies.length ∧ sp.rb2 < s.rigid_bodies.length) →
    ∃ fv', Simulator.spring_fold sqrtFn cfg s l fv = .ok fv' := by
  intro l
  induction l with
  | nil => intro fv _; exact ⟨fv, rfl⟩
  | cons sp l ihl =>
    intro fv h
    obtain ⟨h1, h2⟩ := h sp (List.mem_cons_self _ _)
    obtain ⟨fv2, hstep⟩ : ∃ fv2, Simulator.spring_step sqrtFn cfg s fv sp = .ok fv2 :=
      ⟨_, by rw [Simulator.spring_step, if_pos (by simp [h1, h2])]⟩
    obtain ⟨fv', hrest⟩ := ihl fv2 (fun x hx => h x (List.mem_cons_of_mem _ hx))
    refine ⟨fv', ?_⟩
    simp only [Simulator.spring_fold]
    rw [hstep]
    exact hrest

/-- `calculate_forces` succeeds under the amended preconditions. -/
theorem Simulator.calculate_forces_ok (sqrtFn : ℚ → ℚ) (cfg : SimConfig) (s : SimState)
    (hne : s.rigid_bodies ≠ []) (hm : ∀ rb ∈ s.rigid_bodies, 0 < rb.mass)
    (hth : 1 ≤ cfg.max_threads)
    (hspr : ∀ sp ∈ s.springs, sp.rb1 < s.rigid_bodies.length ∧
      sp.rb2 < s.rigid_bodies.length) :
    ∃ fv, Simulator.calculate_forces sqrtFn cfg s = .ok fv := by
  rw [Simulator.calculate_forces]
  dsimp only
  by_cases hrg : (cfg.repel || cfg.gravity) = true
  · rw [if_pos hrg]
    have hlen : 0 < s.rigid_bodies.length := List.length_pos.mpr hne
    have htc : ¬ (min s.rigid_bodies.length cfg.max_threads = 0) := by
      intro h
      omega
    rw [if_neg htc]
    obtain ⟨tree, htree⟩ := Simulator.build_quadtree_ok s.rigid_bodies hne hm
    rw [htree]
    dsimp only
    by_cases hsp : cfg.spring = true
    · rw [if_pos hsp]
      rw [Simulator.compute_spring_forces_edges]
      exact Simulator.spring_fold_ok sqrtFn cfg s s.springs _ hspr
    · rw [if_neg hsp]
      exact ⟨_, rfl⟩
  · rw [if_neg hrg]
    exact ⟨_, rfl⟩

/-- C2 (amended): on every body store with at least one body, all masses
positive, every spring endpoint in range, and a builder-validated
`max_threads ≥ 1`, one call to `simulation_step` returns normally — no
panic and no error.  The unqualified claim ("including an empty store")
is false: see `C2_counterexample_empty_store`. -/
theorem C2_tick_no_panic (sqrtFn : ℚ → ℚ) (cfg : SimConfig) (s : SimState)
    (hne : s.rigid_bodies ≠ [])
    (hm : ∀ rb ∈ s.rigid_bodies, 0 < rb.mass)
    (hth : 1 ≤ cfg.max_threads)
    (hspr : ∀ sp ∈ s.springs, sp.rb1 < s.rigid_bodies.length ∧
      sp.rb2 < s.rigid_bodies.length) :
    ∃ s', Simulator.simulation_step sqrtFn cfg s = .ok s' := by
  obtain ⟨fv, hfv⟩ := Simulator.calculate_forces_ok sqrtFn cfg s hne hm hth hspr
  refine ⟨⟨Simulator.update_node_position sqrtFn cfg
    (Simulator.apply_node_force cfg fv s.rigid_bodies), s.springs⟩, ?_⟩
  rw [Simulator.simulation_step, hfv]

/-- C2 counterexample: with zero bodies and the default configuration
(`repel = true`), `calculate_forces` computes `thread_count = min(0, 16)
= 0` and then evaluates `node_count / thread_count` — `0 / 0`, an
unguarded integer division that panics in Rust — so the tick does not
return normally. -/
theorem C2_counterexample_empty_store :
    Simulator.simulation_step (fun x => x) SimulatorBuilder.default ⟨[], []⟩ =
      .error SimPanic.divideByZero := by
  with_unfolding_all rfl

/-- C2 witness: a store with one unit-mass body under the default
configuration ticks successfully. -/
theorem C2_tick_no_panic_witness :
    ∃ s', Simulator.simulation_step (fun x => x) SimulatorBuilder.default
      ⟨[⟨⟨1, 2⟩, 0, 1, false⟩], []⟩ = .ok s' :=
  C2_tick_no_panic (fun x => x) SimulatorBuilder.default
    ⟨[⟨⟨1, 2⟩, 0, 1, false⟩], []⟩ (by simp)
    (by intro rb h; rw [List.mem_singleton] at h; subst h; norm_num)
    (by norm_num [SimulatorBuilder.default])
    (by intro sp h; simp at h)
